import Mathlib

/-!
# Verification of the see-spot merge / cache / flow-summary core

A shallow embedding of the computational core of the `see_spot` package:

* `src/see_spot/s3_utils.py`: `optimize_dtypes`, `merge_spots_tables`,
  `get_base_pattern_from_unmixed`, `load_and_merge_spots_from_s3`;
* `src/see_spot/app.py`: `calculate_sankey_data_from_polars`.

Polars DataFrames are modelled as a schema (column name / dtype list) plus a
list of rows, each row an association list from column name to cell value.
Fallible operations (polars raises) return `Option`; `none` models a raised
exception.  Floating-point cell values are modelled as exact rationals, with
binary32 round-to-nearest-even (`roundF32`) applied where polars casts
`Float64 → Float32`; float-to-string and float-to-int casts, NaN and
infinities are outside the model (such casts return `none`).
-/

namespace SeeSpot

/-- A cell value of a DataFrame.  `vNull` is the polars `null`. -/
inductive Val where
  | vNull : Val
  | vStr (s : String) : Val
  | vInt (n : Int) : Val
  | vBool (b : Bool) : Val
  | vFloat (q : ℚ) : Val
deriving DecidableEq, Repr

/-- The polars dtypes the core manipulates. -/
inductive DType where
  | utf8 | int8 | int32 | int64 | float32 | float64 | boolean
deriving DecidableEq, Repr

/-- A row: association list from column name to value. -/
abbrev Row := List (String × Val)

/-- A DataFrame: schema (name, dtype per column) plus rows. -/
structure DF where
  schema : List (String × DType)
  rows : List Row
deriving DecidableEq, Repr

def DF.colNames (df : DF) : List String := df.schema.map Prod.fst

/-- `df.height` in polars: the number of rows. -/
def DF.height (df : DF) : Nat := df.rows.length

/-- First value bound to column `c` in a row, if any. -/
def rowGet : Row → String → Option Val
  | [], _ => none
  | p :: ps, c => if p.1 = c then some p.2 else rowGet ps c

/-- Value of column `c` in row `r` (`null` when the column is absent). -/
def getVal (r : Row) (c : String) : Val := (rowGet r c).getD Val.vNull

/-- `df.drop(c, strict=False)`: remove column `c` if present. -/
def dropCol (df : DF) (c : String) : DF :=
  { schema := df.schema.filter (fun p => p.1 ≠ c),
    rows := df.rows.map (fun r => r.filter (fun p => p.1 ≠ c)) }

/-- Dtype of column `c` per the schema. -/
def schemaGet : List (String × DType) → String → Option DType
  | [], _ => none
  | p :: ps, c => if p.1 = c then some p.2 else schemaGet ps c

/-- `df.select(cs)`: restrict (and reorder) to the listed columns;
polars raises (`none`) when a requested column is missing. -/
def selectCols (df : DF) (cs : List String) : Option DF :=
  if cs.all (fun c => decide (c ∈ df.colNames)) then
    some { schema := cs.map (fun c => (c, (schemaGet df.schema c).getD DType.utf8)),
           rows := df.rows.map (fun r => cs.map (fun c => (c, getVal r c))) }
  else none

/-- Join-key matching: polars `join` with the default `join_nulls=False`
matches two key values iff both are non-null and equal. -/
def keyMatch (v w : Val) : Bool :=
  decide (v ≠ Val.vNull) && decide (w ≠ Val.vNull) && decide (v = w)

/-- One left row's contribution to a left join: one output row per matching
right row, or a single null-padded row when nothing matches. -/
def joinRow (payload : List String) (keys : List String) (rrows : List Row) (lr : Row) :
    List Row :=
  match rrows.filter (fun rr => keys.all (fun k => keyMatch (getVal lr k) (getVal rr k))) with
  | [] => [lr ++ payload.map (fun c => (c, Val.vNull))]
  | ms => ms.map (fun rr => lr ++ payload.map (fun c => (c, getVal rr c)))

/-- `l.join(r, on=keys, how="left")`, preserving left row order (the order
polars produces for this in-memory join).  Polars raises (`none`) when a key
column is missing on either side. -/
def leftJoin (l r : DF) (keys : List String) : Option DF :=
  if keys.all (fun k => decide (k ∈ l.colNames)) &&
     keys.all (fun k => decide (k ∈ r.colNames)) then
    let payload := (r.schema.filter (fun p => decide (p.1 ∉ keys))).map Prod.fst
    some { schema := l.schema ++ r.schema.filter (fun p => decide (p.1 ∉ keys)),
           rows := l.rows.flatMap (joinRow payload keys r.rows) }
  else none

/-- `df.with_columns(name=expr)`: replace column `name` (keeping its schema
position) or append it, the per-row value given by `f`. -/
def setCol (df : DF) (c : String) (dt : DType) (f : Row → Val) : DF :=
  { schema :=
      if c ∈ df.colNames then
        df.schema.map (fun p => if p.1 = c then (c, dt) else p)
      else df.schema ++ [(c, dt)],
    rows := df.rows.map (fun r => r.filter (fun p => p.1 ≠ c) ++ [(c, f r)]) }

/-- `df.with_row_index(name, offset)`: prepend a row-index column.
(The polars index dtype is UInt32; the model does not distinguish it from
int64, and the later cast to Int32 is name-based.) -/
def withRowIndex (df : DF) (c : String) (offset : Int) : DF :=
  { schema := (c, DType.int64) :: df.schema,
    rows := df.rows.enum.map (fun p => (c, Val.vInt (offset + p.1)) :: p.2) }

/-! ## binary32 rounding (for the `Float64 → Float32` downcast) -/

/-- Round a rational to the nearest integer, ties to even. -/
def roundHalfEven (q : ℚ) : ℤ :=
  if q - ⌊q⌋ < 1/2 then ⌊q⌋
  else if 1/2 < q - ⌊q⌋ then ⌊q⌋ + 1
  else if 2 ∣ ⌊q⌋ then ⌊q⌋ else ⌊q⌋ + 1

/-- Round a rational to the nearest IEEE-754 binary32 value (round to
nearest, ties to even), returned as an exact rational.  Subnormals are
handled by clamping the exponent at -126; overflow to infinity is not
modelled (the code only performs this cast after its range guard). -/
def roundF32 (q : ℚ) : ℚ :=
  if q = 0 then 0
  else if q < 0 then
    -((roundHalfEven (|q| / 2 ^ (max (Int.log 2 |q|) (-126) - 23)) : ℚ)
        * 2 ^ (max (Int.log 2 |q|) (-126) - 23))
  else
    (roundHalfEven (|q| / 2 ^ (max (Int.log 2 |q|) (-126) - 23)) : ℚ)
      * 2 ^ (max (Int.log 2 |q|) (-126) - 23)

/-- The exact binary64 value of the Python literal `3.4e38` used by
`optimize_dtypes` as the Float32-range guard
(`339999999999999996123846586046231871488`). -/
def floatRangeLimit : ℚ := 8999725064576941 * 2 ^ 75

/-! ## `optimize_dtypes` (s3_utils.py lines 62-118) -/

/-- Columns forced to `Utf8` by `optimize_dtypes`. -/
def stringCols : List String := ["chan", "unmixed_chan", "cell_id"]

/-- Columns forced to a small integer type by `optimize_dtypes`. -/
def intCols : List String := ["spot_id", "chan_spot_id", "round"]

/-- Columns forced to `Boolean` by `optimize_dtypes`. -/
def boolCols : List String := ["valid_spot", "reassigned", "unmixed_removed"]

/-- Truncation toward zero, the rounding used by the polars float→int
cast. -/
def truncQ (x : ℚ) : ℤ := if 0 ≤ x then ⌊x⌋ else ⌈x⌉

/-- Decimal digits of the fraction `n / d` (with `n < d`) by long division,
stopping at remainder zero; `fuel` bounds the digit count (every binary
float is a dyadic rational whose expansion ends within 1074 digits, so the
bound is never hit on a float value). -/
def fracDigits : Nat → Nat → Nat → String
  | 0, _, _ => ""
  | _, 0, _ => ""
  | fuel + 1, n, d => toString (n * 10 / d) ++ fracDigits fuel (n * 10 % d) d

/-- The decimal rendering of a float cell, for the `Float64 → Utf8` cast.
Polars prints the shortest decimal string that parses back to the same
float; the model prints the exact decimal expansion of the (dyadic) value,
which denotes the same float — no claim depends on the digits, only on the
cast succeeding with a string.  Integral values get a trailing `.0`. -/
def floatStr (x : ℚ) : String :=
  (if x < 0 then "-" else "")
    ++ toString (⌊|x|⌋.toNat)
    ++ "."
    ++ (if |x| - ⌊|x|⌋ = 0 then "0"
        else fracDigits 1100 (|x| - ⌊|x|⌋).num.toNat (|x| - ⌊|x|⌋).den)

/-- Cast a single cell to a target dtype, following polars `DataFrame.cast`
with its default `strict=True`: `none` models a raised
`InvalidOperationError` — an integer (or a float truncation) outside the
target integer range, or a non-numeric string under an integer target.
Float cells stringify under `Utf8`, truncate toward zero under integer
targets, and become `value != 0` under `Boolean`.  Casts between a cell and
an unrelated dtype (well-typed frames never hold such cells) are outside
the model. -/
def castVal (v : Val) (t : DType) : Option Val :=
  match v, t with
  | Val.vNull, _ => some Val.vNull
  | Val.vStr s, DType.utf8 => some (Val.vStr s)
  | Val.vInt n, DType.utf8 => some (Val.vStr (toString n))
  | Val.vBool b, DType.utf8 => some (Val.vStr (if b then "true" else "false"))
  | Val.vInt n, DType.int8 =>
      if -128 ≤ n ∧ n ≤ 127 then some (Val.vInt n) else none
  | Val.vInt n, DType.int32 =>
      if -(2 ^ 31) ≤ n ∧ n ≤ 2 ^ 31 - 1 then some (Val.vInt n) else none
  | Val.vStr s, DType.int8 =>
      match s.toInt? with
      | some n => if -128 ≤ n ∧ n ≤ 127 then some (Val.vInt n) else none
      | none => none
  | Val.vStr s, DType.int32 =>
      match s.toInt? with
      | some n => if -(2 ^ 31) ≤ n ∧ n ≤ 2 ^ 31 - 1 then some (Val.vInt n) else none
      | none => none
  | Val.vBool b, DType.int8 => some (Val.vInt (if b then 1 else 0))
  | Val.vBool b, DType.int32 => some (Val.vInt (if b then 1 else 0))
  | Val.vBool b, DType.boolean => some (Val.vBool b)
  | Val.vInt n, DType.boolean => some (Val.vBool (decide (n ≠ 0)))
  | Val.vFloat x, DType.float32 => some (Val.vFloat (roundF32 x))
  | Val.vFloat x, DType.float64 => some (Val.vFloat x)
  | Val.vFloat x, DType.utf8 => some (Val.vStr (floatStr x))
  | Val.vFloat x, DType.int8 =>
      if -128 ≤ truncQ x ∧ truncQ x ≤ 127
      then some (Val.vInt (truncQ x)) else none
  | Val.vFloat x, DType.int32 =>
      if -(2 ^ 31) ≤ truncQ x ∧ truncQ x ≤ 2 ^ 31 - 1
      then some (Val.vInt (truncQ x)) else none
  | Val.vFloat x, DType.boolean => some (Val.vBool (decide (x ≠ 0)))
  | _, _ => none

/-- The float payload of column `c` in a row, if any. -/
def floatCell (c : String) (r : Row) : Option ℚ :=
  match getVal r c with
  | Val.vFloat x => some x
  | _ => none

/-- The non-null float values observed in column `c` (polars `max`/`min`
ignore nulls). -/
def colFloats (df : DF) (c : String) : List ℚ :=
  df.rows.filterMap (floatCell c)

/-- `series.max()` over rationals (`none` on an empty / all-null column). -/
def listMaxQ : List ℚ → Option ℚ
  | [] => none
  | x :: xs =>
    match listMaxQ xs with
    | none => some x
    | some m => some (max x m)

/-- `series.min()` over rationals. -/
def listMinQ : List ℚ → Option ℚ
  | [] => none
  | x :: xs =>
    match listMinQ xs with
    | none => some x
    | some m => some (min x m)

/-- The entry `optimize_dtypes` puts in its `cast_dict` for a column named
`c` of dtype `dt` (a `none` means the column is left untouched): string- /
int- / bool-designated names get fixed targets unconditionally; other
columns of float dtype are downcast to `Float32` when all observed values
have magnitude below `floatRangeLimit`, kept at `Float64` otherwise, and
left untouched when `max()`/`min()` return `None`. -/
def castTarget (df : DF) (c : String) (dt : DType) : Option DType :=
  if c ∈ stringCols then some DType.utf8
  else if c ∈ intCols then
    (if c = "round" then some DType.int8 else some DType.int32)
  else if c ∈ boolCols then some DType.boolean
  else if dt = DType.float64 ∨ dt = DType.float32 then
    match listMaxQ (colFloats df c), listMinQ (colFloats df c) with
    | some mx, some mn =>
        if |mx| < floatRangeLimit ∧ |mn| < floatRangeLimit
        then some DType.float32 else some DType.float64
    | _, _ => none
  else none

/-- `cast_dict` lookup for a column name (columns absent from the frame get
no cast). -/
def colCastTarget (df : DF) (c : String) : Option DType :=
  match schemaGet df.schema c with
  | none => none
  | some dt => castTarget df c dt

/-- Cast every cell of a row per the `cast_dict`. -/
def castRow (df : DF) : Row → Option Row
  | [] => some []
  | p :: ps =>
    match colCastTarget df p.1 with
    | none => (castRow df ps).map (p :: ·)
    | some t =>
      match castVal p.2 t with
      | none => none
      | some w => (castRow df ps).map ((p.1, w) :: ·)

/-- Cast all rows (any failing cell aborts, as `DataFrame.cast` raises). -/
def castRows (df : DF) : List Row → Option (List Row)
  | [] => some []
  | r :: rs =>
    match castRow df r, castRows df rs with
    | some r', some rs' => some (r' :: rs')
    | _, _ => none

/-- `optimize_dtypes(df)` (s3_utils.py lines 62-118): build the cast
dictionary and apply it (an empty dictionary leaves the frame unchanged;
the row rebuild is then the identity). -/
def optimizeDtypes (df : DF) : Option DF :=
  match castRows df df.rows with
  | none => none
  | some rows =>
    some { schema := df.schema.map (fun p => (p.1, (colCastTarget df p.1).getD p.2)),
           rows := rows }

/-! ## `merge_spots_tables` (s3_utils.py lines 121-160) -/

/-- The columns present in the (spot_id-stripped) unmixed table but absent
from the (spot_id-stripped) mixed table.  The source builds this as a Python
set difference, whose iteration order is unspecified; the model fixes the
unmixed-table column order.  No downstream value depends on this order. -/
def uniqueUnmixedCols (mixedClean unmixedClean : DF) : List String :=
  unmixedClean.colNames.filter (fun c => decide (c ∉ mixedClean.colNames))

/-- The per-row fold `all unique-unmixed columns are null`. -/
def allNullB (cols : List String) (r : Row) : Bool :=
  cols.all (fun c => decide (getVal r c = Val.vNull))

/-- `merge_spots_tables(spots_mixed, spots_unmixed)`: drop any pre-existing
`spot_id`, left-join the mixed table onto the key+unique-unmixed projection
of the unmixed table on `(chan, chan_spot_id)`, derive `unmixed_removed`,
assign a fresh 1-based `spot_id`, and optimize dtypes. -/
def mergeSpotsTables (spotsMixed spotsUnmixed : DF) : Option DF :=
  let mixedClean := dropCol spotsMixed "spot_id"
  let unmixedClean := dropCol spotsUnmixed "spot_id"
  let uniq := uniqueUnmixedCols mixedClean unmixedClean
  let mergeKeys := ["chan", "chan_spot_id"]
  match selectCols unmixedClean (mergeKeys ++ uniq) with
  | none => none
  | some unmixedSubset =>
    match leftJoin mixedClean unmixedSubset mergeKeys with
    | none => none
    | some merged =>
      let merged2 :=
        if uniq.isEmpty then
          setCol merged "unmixed_removed" DType.boolean (fun _ => Val.vBool false)
        else
          setCol merged "unmixed_removed" DType.boolean (fun r => Val.vBool (allNullB uniq r))
      optimizeDtypes (withRowIndex merged2 "spot_id" 1)

/-- `df.filter(pl.col("valid_spot"))`: keep rows whose `valid_spot` is
`true` (nulls are dropped); polars raises (`none`) when the column is
missing. -/
def filterValidSpot (df : DF) : Option DF :=
  if "valid_spot" ∈ df.colNames then
    some { df with rows := df.rows.filter (fun r => decide (getVal r "valid_spot" = Val.vBool true)) }
  else none

/-! ## `calculate_sankey_data_from_polars` (app.py lines 62-152) -/

/-- The per-row final channel: `unmixed_chan`, with the sentinel
`"Removed"` substituted when that value is null, the string `"none"`, or
the empty string (the three conditions of the `pl.when` expression). -/
def finalChanVal (v : Val) : Val :=
  if v = Val.vNull ∨ v = Val.vStr "none" ∨ v = Val.vStr "" then Val.vStr "Removed" else v

/-- The `(chan, final_chan)` pair of a row. -/
def pairKey (r : Row) : Val × Val :=
  (getVal r "chan", finalChanVal (getVal r "unmixed_chan"))

/-- Constructor rank used to order values of different shapes (a polars
column is monotyped, so only the same-constructor comparisons are ever
exercised by the code; nulls sort first). -/
def valRank : Val → Nat
  | Val.vNull => 0
  | Val.vBool _ => 1
  | Val.vInt _ => 2
  | Val.vFloat _ => 3
  | Val.vStr _ => 4

/-- Lexicographic code-point comparison of character lists (structural, so
that it evaluates under kernel reduction; agrees with the `String` order
used by Python and polars on these values). -/
def strLeAux : List Char → List Char → Bool
  | [], _ => true
  | _ :: _, [] => false
  | a :: as, b :: bs =>
    if a.toNat < b.toNat then true
    else if b.toNat < a.toNat then false
    else strLeAux as bs

/-- Lexicographic string comparison by code points. -/
def strLe (a b : String) : Bool := strLeAux a.data b.data

/-- Total order on cell values (string order on strings, numeric order on
numbers, nulls first). -/
def valLe (v w : Val) : Bool :=
  match v, w with
  | Val.vStr a, Val.vStr b => strLe a b
  | Val.vInt a, Val.vInt b => decide (a ≤ b)
  | Val.vBool a, Val.vBool b => decide (a ≤ b)
  | Val.vFloat a, Val.vFloat b => decide (a ≤ b)
  | Val.vNull, Val.vNull => true
  | _, _ => decide (valRank v ≤ valRank w)

/-- Lexicographic order on `(chan, final_chan)` pairs, used by the
`flow_counts.sort(['chan', 'final_chan'])` step. -/
def pairLe (a b : Val × Val) : Bool :=
  if a.1 = b.1 then valLe a.2 b.2 else valLe a.1 b.1

/-- Insert into a sorted list, before the first element it compares `le`
to (stable insertion). -/
def insertSorted (le : α → α → Bool) (x : α) : List α → List α
  | [] => [x]
  | y :: ys => if le x y then x :: y :: ys else y :: insertSorted le x ys

/-- Stable sort by a boolean comparison (models polars `sort` and Python
`sorted`; all lists sorted by this development are duplicate-free, so only
the ordering matters). -/
def sortBy (le : α → α → Bool) (l : List α) : List α :=
  l.foldr (insertSorted le) []

/-- The Python `sorted(final_channels, key=lambda x: (x == 'Removed', x))`
comparison: order by the pair (is-the-sentinel, value). -/
def removedLastLe (v w : Val) : Bool :=
  if decide (v = Val.vStr "Removed") = decide (w = Val.vStr "Removed") then valLe v w
  else decide (v ≠ Val.vStr "Removed")

/-- The distinct `(chan, final_chan)` pairs, sorted: the keys of
`flow_counts`. -/
def flowPairs (df : DF) : List (Val × Val) :=
  sortBy pairLe (df.rows.map pairKey).dedup

/-- The `count` aggregated for one `(chan, final_chan)` pair. -/
def flowCount (df : DF) (p : Val × Val) : Nat :=
  (df.rows.map pairKey).count p

/-- One entry of the Sankey `links` list.  `origin`/`final` are the raw
channel values (rendered as `"... (Original)"` / `"... (Final)"` source and
target labels); the floating-point `percentage` display field is not
modelled. -/
structure SankeyLink where
  origin : Val
  final : Val
  value : Nat
  flow_type : String
deriving DecidableEq, Repr

/-- The result of `calculate_sankey_data_from_polars`.  The node list of
the source is `original_channels` (category "original") followed by
`final_channels` (category "final"), in order. -/
structure SankeyData where
  original_channels : List Val
  final_channels : List Val
  links : List SankeyLink
  total_spots : Nat
  threshold_used : Nat
deriving DecidableEq, Repr

/-- `calculate_sankey_data_from_polars(df)` (app.py lines 62-152).
The threshold `max(5, int(total_spots * 0.001))` is modelled as
`max 5 (total / 1000)`: for every realistic row count (far below 2^40)
the binary64 product `total * 0.001` truncates to exactly `total / 1000`. -/
def calculateSankeyData (df : DF) : SankeyData :=
  let total := df.height
  let thr := max 5 (total / 1000)
  let origs := sortBy valLe (df.rows.map (fun r => getVal r "chan")).dedup
  let finalsBase := sortBy valLe (df.rows.map (fun r => finalChanVal (getVal r "unmixed_chan"))).dedup
  let finals := sortBy removedLastLe finalsBase
  let links := (flowPairs df).filterMap (fun p =>
    let cnt := flowCount df p
    if thr ≤ cnt then
      some { origin := p.1, final := p.2, value := cnt,
             flow_type :=
               if p.1 = p.2 then "unchanged"
               else if p.2 = Val.vStr "Removed" then "removed"
               else "reassigned" }
    else none)
  { original_channels := origs, final_channels := finals, links := links,
    total_spots := total, threshold_used := thr }

/-! ## `load_and_merge_spots_from_s3` (s3_utils.py lines 219-369) -/

/-- Python's `part[1:].isdigit()` restricted to ASCII digits (the round
tokens are plain ASCII). -/
def isDigits (s : String) : Bool :=
  s.length != 0 && s.all Char.isDigit

/-- `Path(key).name`: the last `/`-separated component. -/
def pathName (key : String) : String :=
  ((key.splitOn "/").getLastD key)

/-- `get_base_pattern_from_unmixed` (s3_utils.py lines 207-216): the first
`_`-separated token of the filename that starts with `R` followed by digits
or by `-1`, defaulting to `"R3"`. -/
def getBasePatternFromUnmixed (unmixedKey : String) : String :=
  let filename := pathName unmixedKey
  let parts := filename.splitOn "_"
  match parts.find? (fun part =>
      part.startsWith "R" && (isDigits (part.drop 1) || part.drop 1 == "-1")) with
  | some p => p
  | none => "R3"

/-- The external effects `load_and_merge_spots_from_s3` depends on,
reified as data: the durable parquet cache (existence and load result,
`none` modelling a load that raises), the two file-locator results, the
per-key download success and pickle-deserialization results.  The parquet
cache write is logged-and-ignored by the source and does not influence the
returned value, so it has no field here. -/
structure S3Env where
  cacheExists : Bool
  cacheLoad : Option DF
  unmixedKey : Option String
  mixedKeyFor : String → Option String
  downloadOk : String → Bool
  pickleTable : String → Option DF

/-- The cache-miss path of `load_and_merge_spots_from_s3` (s3_utils.py
lines 262-369): locate the unmixed and mixed files, download both,
deserialize both, merge, (attempt to) persist, and filter if requested.
`none` models both the source's `return None` branches and an uncaught
exception. -/
def mergePipeline (env : S3Env) (validSpotsOnly : Bool) : Option DF :=
  match env.unmixedKey with
  | none => none
  | some unmixedKey =>
    let mixedPattern := "mixed_spots_" ++ getBasePatternFromUnmixed unmixedKey ++ ".pkl"
    match env.mixedKeyFor mixedPattern with
    | none => none
    | some mixedKey =>
      if env.downloadOk unmixedKey && env.downloadOk mixedKey then
        match env.pickleTable unmixedKey, env.pickleTable mixedKey with
        | some dfUnmixed, some dfMixed =>
          match mergeSpotsTables dfMixed dfUnmixed with
          | none => none
          | some dfMerged =>
            if validSpotsOnly then filterValidSpot dfMerged else some dfMerged
        | _, _ => none
      else none

/-- `load_and_merge_spots_from_s3` (s3_utils.py lines 219-369): when the
cache file exists, try loading it, re-optimizing dtypes and filtering — any
failure inside that `try` block falls through to the full pipeline. -/
def loadAndMergeSpotsFromS3 (env : S3Env) (validSpotsOnly : Bool) : Option DF :=
  let cacheHit : Option DF :=
    if env.cacheExists then
      match env.cacheLoad with
      | none => none
      | some df =>
        match optimizeDtypes df with
        | none => none
        | some dfOpt =>
          if validSpotsOnly then filterValidSpot dfOpt else some dfOpt
    else none
  match cacheHit with
  | some r => some r
  | none => mergePipeline env validSpotsOnly

/-! ## Concrete tables (the spec's end-to-end example, and counterexample
inputs) -/

/-- The spec's example mixed table. -/
def mixedEx : DF :=
  { schema := [("chan", DType.utf8), ("chan_spot_id", DType.int64), ("valid_spot", DType.boolean)],
    rows := [
      [("chan", Val.vStr "488"), ("chan_spot_id", Val.vInt 1), ("valid_spot", Val.vBool true)],
      [("chan", Val.vStr "488"), ("chan_spot_id", Val.vInt 2), ("valid_spot", Val.vBool true)],
      [("chan", Val.vStr "561"), ("chan_spot_id", Val.vInt 1), ("valid_spot", Val.vBool false)]] }

/-- The spec's example unmixed table. -/
def unmixedEx : DF :=
  { schema := [("chan", DType.utf8), ("chan_spot_id", DType.int64), ("unmixed_chan", DType.utf8)],
    rows := [
      [("chan", Val.vStr "488"), ("chan_spot_id", Val.vInt 1), ("unmixed_chan", Val.vStr "488")],
      [("chan", Val.vStr "488"), ("chan_spot_id", Val.vInt 2), ("unmixed_chan", Val.vNull)]] }

/-- The merged result of the spec's example (defaults to an empty frame if
the merge failed; the theorems below certify it did not). -/
def mergedEx : DF := (mergeSpotsTables mixedEx unmixedEx).getD { schema := [], rows := [] }

/-- A mixed table whose `(chan, chan_spot_id)` pairs are trivially unique
per mixed row: one row. -/
def dupKeyMixed : DF :=
  { schema := [("chan", DType.utf8), ("chan_spot_id", DType.int64), ("valid_spot", DType.boolean)],
    rows := [
      [("chan", Val.vStr "488"), ("chan_spot_id", Val.vInt 1), ("valid_spot", Val.vBool true)]] }

/-- An unmixed table with two rows sharing the key `("488", 1)`. -/
def dupKeyUnmixed : DF :=
  { schema := [("chan", DType.utf8), ("chan_spot_id", DType.int64), ("unmixed_chan", DType.utf8)],
    rows := [
      [("chan", Val.vStr "488"), ("chan_spot_id", Val.vInt 1), ("unmixed_chan", Val.vStr "488")],
      [("chan", Val.vStr "488"), ("chan_spot_id", Val.vInt 1), ("unmixed_chan", Val.vStr "561")]] }

/-- A one-column table whose `round` value 300 fits `Int16` but not the
`Int8` that `optimize_dtypes` unconditionally targets for `round`. -/
def round300 : DF :=
  { schema := [("round", DType.int64)],
    rows := [[("round", Val.vInt 300)]] }

/-- A table whose int-designated `round` column has float dtype (as pandas
pickles produce when an integer column holds NaN): `optimize_dtypes` silently
truncates its 3.7 to 3. -/
def c5TruncDf : DF :=
  { schema := [("round", DType.float64)],
    rows := [[("round", Val.vFloat (37 / 10))]] }

/-- Five identical rows whose `unmixed_chan` is the literal string
`"none"` — not null and not empty. -/
def noneChanDf : DF :=
  { schema := [("chan", DType.utf8), ("unmixed_chan", DType.utf8)],
    rows := List.replicate 5
      [("chan", Val.vStr "488"), ("unmixed_chan", Val.vStr "none")] }

/-- Five rows reassigned from channel 488 to 561: enough to clear the
minimum flow threshold of 5. -/
def reassignedDf : DF :=
  { schema := [("chan", DType.utf8), ("unmixed_chan", DType.utf8)],
    rows := List.replicate 5
      [("chan", Val.vStr "488"), ("unmixed_chan", Val.vStr "561")] }

/-- The optimized form of the example merged table (used to witness
idempotence of `optimize_dtypes`). -/
def optimizedEx : DF := (optimizeDtypes mergedEx).getD { schema := [], rows := [] }

/-- The value range of the narrow integer type `optimize_dtypes` targets
for the int-designated column `c` (`Int8` for `round`, `Int32`
otherwise). -/
def intTargetRange (c : String) (n : ℤ) : Prop :=
  if c = "round" then -128 ≤ n ∧ n ≤ 127 else -(2 ^ 31) ≤ n ∧ n ≤ 2 ^ 31 - 1

instance (c : String) (n : ℤ) : Decidable (intTargetRange c n) := by
  unfold intTargetRange; infer_instance

/-- Extend a table with one more column (appended last), with the given
per-row values: used to compare merging with and without a pre-existing
`spot_id` column. -/
def appendCol (df : DF) (c : String) (dt : DType) (vs : List Val) : DF :=
  { schema := df.schema ++ [(c, dt)],
    rows := df.rows.zipWith (fun r v => r ++ [(c, v)]) vs }

/-- A concrete environment whose durable cache file exists but fails to
load. -/
def corruptCacheEnv : S3Env :=
  { cacheExists := true
    cacheLoad := none
    unmixedKey := some "ds/spots/unmixed_spots_R3_minDist_3.pkl"
    mixedKeyFor := fun pat =>
      if pat = "mixed_spots_R3.pkl" then some "ds/spots/mixed_spots_R3.pkl" else none
    downloadOk := fun _ => true
    pickleTable := fun k =>
      if k = "ds/spots/unmixed_spots_R3_minDist_3.pkl" then some unmixedEx
      else if k = "ds/spots/mixed_spots_R3.pkl" then some mixedEx
      else none }

/-- A table with an int-designated column and a float column holding a value
of magnitude at least `floatRangeLimit`: `optimize_dtypes` keeps that float
column at `Float64`. -/
def c5FloatDf : DF :=
  { schema := [("round", DType.int64), ("x", DType.float64)],
    rows := [[("round", Val.vInt 3), ("x", Val.vFloat (34 * 10 ^ 37))]] }

/-! ## Generic row lemmas -/

theorem rowGet_cons (k : String) (v : Val) (r : Row) (c : String) :
    rowGet ((k, v) :: r) c = if k = c then some v else rowGet r c := rfl

theorem rowGet_filter_ne (r : Row) {c c' : String} (h : c ≠ c') :
    rowGet (r.filter (fun p => p.1 ≠ c')) c = rowGet r c := by
  induction r with
  | nil => rfl
  | cons p ps ih =>
    by_cases hp : p.1 = c'
    · have hpc : p.1 ≠ c := by rw [hp]; exact Ne.symm h
      rw [List.filter_cons, if_neg (by simp [hp]), ih]
      simp [rowGet, hpc]
    · rw [List.filter_cons, if_pos (by simp [hp])]
      by_cases hc : p.1 = c
      · simp only [rowGet, if_pos hc]
      · simp only [rowGet, if_neg hc]
        exact ih

theorem rowGet_append (r₁ r₂ : Row) (c : String) :
    rowGet (r₁ ++ r₂) c =
      match rowGet r₁ c with
      | some v => some v
      | none => rowGet r₂ c := by
  induction r₁ with
  | nil => rfl
  | cons p ps ih =>
    by_cases hc : p.1 = c <;> simp [rowGet, hc, ih]

theorem getVal_setCol_row_ne (r : Row) (c c' : String) (v : Val) (h : c ≠ c') :
    getVal (r.filter (fun p => p.1 ≠ c') ++ [(c', v)]) c = getVal r c := by
  unfold getVal
  rw [rowGet_append, rowGet_filter_ne r h]
  cases hr : rowGet r c with
  | none => simp [rowGet, Ne.symm h]
  | some w => simp

theorem getVal_setCol_row_self (r : Row) (c : String) (v : Val) :
    getVal (r.filter (fun p => p.1 ≠ c) ++ [(c, v)]) c = v := by
  unfold getVal
  have hfil : rowGet (r.filter (fun p => p.1 ≠ c)) c = none := by
    induction r with
    | nil => rfl
    | cons p ps ih =>
      by_cases hp : p.1 = c
      · rw [List.filter_cons, if_neg (by simp [hp])]; exact ih
      · rw [List.filter_cons, if_pos (by simp [hp])]
        simp only [rowGet, if_neg hp]
        exact ih
  rw [rowGet_append, hfil]
  simp [rowGet]

/-! ## Cast lemmas -/

theorem castVal_null (t : DType) : castVal Val.vNull t = some Val.vNull := by
  cases t <;> rfl

theorem castVal_null_iff {v w : Val} {t : DType} (h : castVal v t = some w) :
    w = Val.vNull ↔ v = Val.vNull := by
  cases v <;> cases t <;>
    simp only [castVal] at h <;>
    (try split at h) <;> (try split at h) <;>
    (try simp only [Option.some.injEq] at h) <;>
    (try subst h) <;> simp_all

theorem castRow_some_getVal {df : DF} {r r' : Row} (h : castRow df r = some r') (c : String) :
    (match colCastTarget df c with
     | none => some (getVal r c)
     | some t => castVal (getVal r c) t) = some (getVal r' c) := by
  induction r generalizing r' with
  | nil =>
    simp only [castRow, Option.some.injEq] at h
    subst h
    cases ht : colCastTarget df c with
    | none => simp [getVal, rowGet]
    | some t => simp [getVal, rowGet, castVal_null]
  | cons p ps ih =>
    simp only [castRow] at h
    cases htp : colCastTarget df p.1 with
    | none =>
      simp only [htp] at h
      cases hps : castRow df ps with
      | none => simp [hps] at h
      | some ps' =>
        simp only [hps, Option.map_some', Option.some.injEq] at h
        subst h
        by_cases hc : p.1 = c
        · subst hc
          simp [getVal, rowGet, htp]
        · have := ih hps
          simpa [getVal, rowGet, hc] using this
    | some t =>
      simp only [htp] at h
      cases hcv : castVal p.2 t with
      | none => simp [hcv] at h
      | some w =>
        simp only [hcv] at h
        cases hps : castRow df ps with
        | none => simp [hps] at h
        | some ps' =>
          simp only [hps, Option.map_some', Option.some.injEq] at h
          subst h
          by_cases hc : p.1 = c
          · subst hc
            simp [getVal, rowGet, htp, hcv]
          · have := ih hps
            simpa [getVal, rowGet, hc] using this

theorem castRows_forall₂ {df : DF} {rs rs' : List Row} (h : castRows df rs = some rs') :
    List.Forall₂ (fun r r' => castRow df r = some r') rs rs' := by
  induction rs generalizing rs' with
  | nil =>
    simp only [castRows, Option.some.injEq] at h
    subst h; exact List.Forall₂.nil
  | cons r rest ih =>
    simp only [castRows] at h
    cases hr : castRow df r with
    | none => rw [hr] at h; simp at h
    | some r' =>
      rw [hr] at h
      cases hrest : castRows df rest with
      | none => rw [hrest] at h; simp at h
      | some rest' =>
        rw [hrest] at h
        simp only [Option.some.injEq] at h
        subst h
        exact List.Forall₂.cons hr (ih hrest)

theorem castRows_of_forall₂ {df : DF} {rs rs' : List Row}
    (h : List.Forall₂ (fun r r' => castRow df r = some r') rs rs') :
    castRows df rs = some rs' := by
  induction h with
  | nil => rfl
  | cons hr _ ih => simp [castRows, hr, ih]

theorem optimizeDtypes_height {df out : DF} (h : optimizeDtypes df = some out) :
    out.height = df.height := by
  simp only [optimizeDtypes] at h
  cases hcr : castRows df df.rows with
  | none => rw [hcr] at h; simp at h
  | some rows =>
    rw [hcr] at h
    simp only [Option.some.injEq] at h
    subst h
    exact (castRows_forall₂ hcr).length_eq.symm

/-! ## Claim theorems: concrete end-to-end example (C3) -/

/-- Claim C3: the spec's concrete example — merging the 3-row mixed table
with the 2-row unmixed table yields exactly 3 rows with
`(unmixed_chan, unmixed_removed)` equal to `("488", False)`,
`(null, True)`, `(null, True)` in that order, and filtering to
`valid_spot = True` yields exactly the first two rows of that output. -/
theorem merge_example_end_to_end :
    (mergeSpotsTables mixedEx unmixedEx).map
        (fun out => (out.height,
          out.rows.map (fun r => (getVal r "unmixed_chan", getVal r "unmixed_removed"))))
      = some (3, [(Val.vStr "488", Val.vBool false),
                  (Val.vNull, Val.vBool true),
                  (Val.vNull, Val.vBool true)])
    ∧ (mergeSpotsTables mixedEx unmixedEx).bind filterValidSpot
      = (mergeSpotsTables mixedEx unmixedEx).map
          (fun out => { out with rows := out.rows.take 2 }) := by
  constructor <;> decide

/-! ## Claim theorems: corrupted cache fallback (C8) -/

/-- Claim C8: when the durable cache file exists but loading it fails,
`load_and_merge_spots_from_s3` behaves exactly like the cache-miss path —
it runs the full locate/download/merge pipeline instead of propagating the
load failure. -/
theorem corrupted_cache_falls_back (env : S3Env) (v : Bool)
    (hex : env.cacheExists = true) (hload : env.cacheLoad = none) :
    loadAndMergeSpotsFromS3 env v = mergePipeline env v := by
  simp [loadAndMergeSpotsFromS3, hex, hload]

/-- Witness for C8 at a concrete environment with an existing but
corrupted cache file. -/
theorem corrupted_cache_falls_back_witness :
    corruptCacheEnv.cacheExists = true ∧ corruptCacheEnv.cacheLoad = none ∧
      loadAndMergeSpotsFromS3 corruptCacheEnv true = mergePipeline corruptCacheEnv true :=
  ⟨rfl, rfl, corrupted_cache_falls_back corruptCacheEnv true rfl rfl⟩

/-! ## Counterexamples (C1, C5, C7) -/

/-! ## Join-cardinality lemmas (C1, C4, C10) -/

theorem getVal_map_select (cs : List String) (r : Row) {k : String} (hk : k ∈ cs) :
    getVal (cs.map (fun c => (c, getVal r c))) k = getVal r k := by
  induction cs with
  | nil => cases hk
  | cons c cs ih =>
    by_cases hc : c = k
    · subst hc; simp [getVal, rowGet]
    · have hk' : k ∈ cs := by
        cases hk with
        | head => exact absurd rfl hc
        | tail _ h => exact h
      simp only [List.map_cons, getVal, rowGet, if_neg hc]
      exact ih hk'

theorem flatMap_length_of_one {α β : Type _} {l : List α} {f : α → List β}
    (h : ∀ a ∈ l, (f a).length = 1) : (l.flatMap f).length = l.length := by
  induction l with
  | nil => rfl
  | cons a as ih =>
    have ha := h a (by simp)
    have has : ∀ b ∈ as, (f b).length = 1 := fun b hb => h b (by simp [hb])
    simp [List.flatMap_cons, ha, ih has]
    omega

theorem keyMatch_eq {v w : Val} (h : keyMatch v w = true) : w = v := by
  simp only [keyMatch, Bool.and_eq_true, decide_eq_true_eq] at h
  exact h.2.symm

theorem pass_keys_eq {lr rr : Row}
    (h : (["chan", "chan_spot_id"] : List String).all
        (fun k => keyMatch (getVal lr k) (getVal rr k)) = true) :
    getVal rr "chan" = getVal lr "chan"
    ∧ getVal rr "chan_spot_id" = getVal lr "chan_spot_id" := by
  simp only [List.all_cons, List.all_nil, Bool.and_eq_true] at h
  exact ⟨keyMatch_eq h.1, keyMatch_eq h.2.1⟩

theorem filter_keyMatch_length_le_one {rrows : List Row} {lr : Row}
    (hnd : (rrows.map (fun rr => (getVal rr "chan", getVal rr "chan_spot_id"))).Nodup) :
    (rrows.filter (fun rr => (["chan", "chan_spot_id"] : List String).all
        (fun k => keyMatch (getVal lr k) (getVal rr k)))).length ≤ 1 := by
  induction rrows with
  | nil => simp
  | cons rr rest ih =>
    simp only [List.map_cons, List.nodup_cons] at hnd
    rw [List.filter_cons]
    by_cases hp : (["chan", "chan_spot_id"] : List String).all
        (fun k => keyMatch (getVal lr k) (getVal rr k)) = true
    · rw [if_pos hp]
      have hrest : rest.filter (fun rr' => (["chan", "chan_spot_id"] : List String).all
          (fun k => keyMatch (getVal lr k) (getVal rr' k))) = [] := by
        rw [List.filter_eq_nil_iff]
        intro rr' hrr' hp'
        have h1 := pass_keys_eq hp
        have h2 := pass_keys_eq hp'
        have : (getVal rr' "chan", getVal rr' "chan_spot_id")
            = (getVal rr "chan", getVal rr "chan_spot_id") := by
          rw [h1.1, h1.2, h2.1, h2.2]
        have hmem : (getVal rr "chan", getVal rr "chan_spot_id")
            ∈ rest.map (fun rr => (getVal rr "chan", getVal rr "chan_spot_id")) := by
          rw [← this]; exact List.mem_map_of_mem _ hrr'
        exact hnd.1 hmem
      rw [hrest]
      simp
    · rw [if_neg hp]
      exact ih hnd.2

theorem joinRow_length {payload keys : List String} {rrows : List Row} {lr : Row}
    (h : (rrows.filter (fun rr => keys.all (fun k => keyMatch (getVal lr k) (getVal rr k)))).length ≤ 1) :
    (joinRow payload keys rrows lr).length = 1 := by
  unfold joinRow
  cases hf : rrows.filter (fun rr => keys.all (fun k => keyMatch (getVal lr k) (getVal rr k))) with
  | nil => simp
  | cons mrow ms =>
    rw [hf] at h
    cases ms with
    | nil => simp
    | cons m2 ms2 => simp at h

theorem selectCols_rows {df out : DF} {cs : List String} (h : selectCols df cs = some out) :
    out.rows = df.rows.map (fun r => cs.map (fun c => (c, getVal r c))) := by
  unfold selectCols at h
  split at h
  · cases h; rfl
  · cases h

theorem leftJoin_rows {l r out : DF} {keys : List String} (h : leftJoin l r keys = some out) :
    out.rows = l.rows.flatMap
      (joinRow ((r.schema.filter (fun p => decide (p.1 ∉ keys))).map Prod.fst) keys r.rows) := by
  unfold leftJoin at h
  split at h
  · cases h; rfl
  · cases h

/-- Rows-preserving steps of the merge: `setCol` and `withRowIndex` keep
the row count. -/
theorem setCol_height (df : DF) (c : String) (dt : DType) (f : Row → Val) :
    (setCol df c dt f).height = df.height := by
  simp [setCol, DF.height]

theorem withRowIndex_height (df : DF) (c : String) (o : Int) :
    (withRowIndex df c o).height = df.height := by
  simp [withRowIndex, DF.height, List.enum_length]

theorem dropCol_height (df : DF) (c : String) : (dropCol df c).height = df.height := by
  simp [dropCol, DF.height]

theorem getVal_filter_ne (r : Row) {c c' : String} (h : c ≠ c') :
    getVal (r.filter (fun p => p.1 ≠ c')) c = getVal r c := by
  unfold getVal; rw [rowGet_filter_ne r h]

/-- Claim C1 (amended): when the `(chan, chan_spot_id)` pairs are unique
per **unmixed** row, the merge returns exactly as many rows as the mixed
table — every mixed row appears exactly once, and unmixed rows whose key
matches no mixed row contribute no output row.  (The original claim
assumed uniqueness per mixed row, which does not bound a left join; see
the counterexample.) -/
theorem merge_join_cardinality (m u out : DF)
    (hnd : (u.rows.map (fun r => (getVal r "chan", getVal r "chan_spot_id"))).Nodup)
    (h : mergeSpotsTables m u = some out) :
    out.height = m.height := by
  simp only [mergeSpotsTables] at h
  cases hsel : selectCols (dropCol u "spot_id")
      (["chan", "chan_spot_id"] ++ uniqueUnmixedCols (dropCol m "spot_id") (dropCol u "spot_id")) with
  | none => simp only [hsel] at h; exact Option.noConfusion h
  | some us =>
    simp only [hsel] at h
    cases hjoin : leftJoin (dropCol m "spot_id") us ["chan", "chan_spot_id"] with
    | none => simp only [hjoin] at h; exact Option.noConfusion h
    | some joined =>
      simp only [hjoin] at h
      have h1 := optimizeDtypes_height h
      rw [withRowIndex_height] at h1
      have h2 : out.height = joined.height := by
        rw [h1]; split <;> exact setCol_height ..
      have hus : us.rows.map (fun rr => (getVal rr "chan", getVal rr "chan_spot_id"))
          = u.rows.map (fun r => (getVal r "chan", getVal r "chan_spot_id")) := by
        rw [selectCols_rows hsel]
        simp only [dropCol, List.map_map]
        refine List.map_congr_left ?_
        intro r _
        simp only [Function.comp]
        rw [getVal_map_select _ _ (by simp : ("chan" : String) ∈ _),
            getVal_map_select _ _ (by simp : ("chan_spot_id" : String) ∈ _),
            getVal_filter_ne r (by decide), getVal_filter_ne r (by decide)]
      have hnd' : (us.rows.map (fun rr => (getVal rr "chan", getVal rr "chan_spot_id"))).Nodup := by
        rw [hus]; exact hnd
      have hjl : joined.height = m.height := by
        show joined.rows.length = m.height
        rw [leftJoin_rows hjoin]
        rw [flatMap_length_of_one (fun lr _ => joinRow_length (filter_keyMatch_length_le_one hnd'))]
        exact dropCol_height m "spot_id"
      rw [h2, hjl]

/-- Witness for C1 (amended) at the spec's example tables. -/
theorem merge_join_cardinality_witness :
    (unmixedEx.rows.map (fun r => (getVal r "chan", getVal r "chan_spot_id"))).Nodup
    ∧ mergedEx.height = mixedEx.height :=
  ⟨by decide, merge_join_cardinality mixedEx unmixedEx mergedEx (by decide) (by decide)⟩

/-- Counterexample to claim C1 as stated: the mixed table has unique
`(chan, chan_spot_id)` pairs (a single row), yet the merged output has 2
rows, because the unmixed table repeats the key `("488", 1)` — key
uniqueness on the mixed side alone does not bound the left join. -/
theorem join_cardinality_counterexample :
    (dupKeyMixed.rows.map (fun r => (getVal r "chan", getVal r "chan_spot_id"))).Nodup
    ∧ dupKeyMixed.height = 1
    ∧ (mergeSpotsTables dupKeyMixed dupKeyUnmixed).map DF.height = some 2 := by
  refine ⟨by decide, rfl, by decide⟩

/-- Counterexample to claim C5 as stated, in both directions the code fails
it.  Raising: the `round` column holds the integer 300, outside the `Int8`
range that `optimize_dtypes` unconditionally targets for `round`; instead of
keeping the wider type, the strict cast raises (`none`).  Silent truncation:
a float-typed `round` column holding 3.7 is cast to `Int8` and returns with
the value 3 — a changed value, not just a changed representation. -/
theorem optimize_out_of_range_counterexample :
    (¬ intTargetRange "round" 300 ∧ optimizeDtypes round300 = none) ∧
    (optimizeDtypes c5TruncDf
        = some ⟨[("round", DType.int8)], [[("round", Val.vInt 3)]]⟩ ∧
      getVal (c5TruncDf.rows.headI) "round" = Val.vFloat (37 / 10) ∧
      Val.vInt 3 ≠ Val.vFloat (37 / 10)) := by
  refine ⟨⟨by decide, by decide⟩, ?_, rfl, by decide⟩
  have htr : truncQ (37 / 10 : ℚ) = 3 := by
    have hfl : ⌊(37 / 10 : ℚ)⌋ = 3 := by
      rw [Int.floor_eq_iff]
      norm_num
    rw [truncQ, if_pos (by norm_num)]
    exact hfl
  have hcr : colCastTarget c5TruncDf "round" = some DType.int8 := by decide
  have hcv : castVal (Val.vFloat (37 / 10)) DType.int8 = some (Val.vInt 3) := by
    show (if -128 ≤ truncQ (37 / 10 : ℚ) ∧ truncQ (37 / 10 : ℚ) ≤ 127
        then some (Val.vInt (truncQ (37 / 10 : ℚ))) else none) = some (Val.vInt 3)
    rw [htr]
    decide
  have hrow : castRow c5TruncDf [("round", Val.vFloat (37 / 10))]
      = some [("round", Val.vInt 3)] := by
    simp [castRow, hcr, hcv]
  have hrows : castRows c5TruncDf c5TruncDf.rows = some [[("round", Val.vInt 3)]] := by
    show castRows c5TruncDf [[("round", Val.vFloat (37 / 10))]]
      = some [[("round", Val.vInt 3)]]
    simp only [castRows, hrow]
  unfold optimizeDtypes
  rw [hrows]
  show some (DF.mk
      (c5TruncDf.schema.map (fun p => (p.1, (colCastTarget c5TruncDf p.1).getD p.2)))
      [[("round", Val.vInt 3)]]) = _
  have hsch : c5TruncDf.schema.map (fun p => (p.1, (colCastTarget c5TruncDf p.1).getD p.2))
      = [("round", DType.int8)] := by
    show [("round", (colCastTarget c5TruncDf "round").getD DType.float64)]
      = [("round", DType.int8)]
    rw [hcr]
    rfl
  rw [hsch]

/-- Counterexample to claim C7 as stated: with `unmixed_chan` equal to the
literal string `"none"` (neither null nor empty), the flow calculation
still substitutes the sentinel `"Removed"`. -/
theorem final_channel_counterexample :
    noneChanDf.rows.all (fun r => decide (getVal r "unmixed_chan" = Val.vStr "none"))
    ∧ (calculateSankeyData noneChanDf).links.map SankeyLink.final = [Val.vStr "Removed"]
    ∧ Val.vStr "none" ∉ (calculateSankeyData noneChanDf).final_channels := by
  refine ⟨by decide, by decide, by decide⟩

/-! ## spot_id density (C4) -/

theorem colCastTarget_spot_id (df : DF) :
    colCastTarget (withRowIndex df "spot_id" 1) "spot_id" = some DType.int32 := rfl

theorem withRowIndex_rows_getElem (df : DF) (c : String) (o : Int) (i : Nat)
    (h : i < (withRowIndex df c o).rows.length) (h' : i < df.rows.length) :
    (withRowIndex df c o).rows[i] = (c, Val.vInt (o + (i : Int))) :: df.rows[i] := by
  simp only [withRowIndex]
  rw [List.getElem_map, List.getElem_enum]

theorem optimize_withRowIndex_spot_id {df out : DF}
    (h : optimizeDtypes (withRowIndex df "spot_id" 1) = some out) :
    out.rows.map (fun r => getVal r "spot_id")
      = (List.range out.height).map (fun i : Nat => Val.vInt (1 + (i : Int))) := by
  have hrows : castRows (withRowIndex df "spot_id" 1) (withRowIndex df "spot_id" 1).rows
      = some out.rows := by
    unfold optimizeDtypes at h
    cases hcr : castRows (withRowIndex df "spot_id" 1) (withRowIndex df "spot_id" 1).rows with
    | none => rw [hcr] at h; exact Option.noConfusion h
    | some rows =>
      rw [hcr] at h
      simp only [Option.some.injEq] at h
      rw [← h]
  have hf := castRows_forall₂ hrows
  rw [List.forall₂_iff_get] at hf
  obtain ⟨hlen, hget⟩ := hf
  have hpre_len : (withRowIndex df "spot_id" 1).rows.length = df.rows.length := by
    simp [withRowIndex, List.enum_length]
  apply List.ext_getElem
  · simp [DF.height]
  · intro i h₁ h₂
    have h₁' : i < out.rows.length := by simpa using h₁
    have h₀ : i < (withRowIndex df "spot_id" 1).rows.length := by omega
    have hcast := castRow_some_getVal (hget i h₀ h₁') "spot_id"
    rw [colCastTarget_spot_id] at hcast
    simp only [List.get_eq_getElem] at hcast
    rw [withRowIndex_rows_getElem df "spot_id" 1 i h₀ (by omega)] at hcast
    have hpre : getVal (("spot_id", Val.vInt (1 + (i : Int))) :: df.rows[i])
        "spot_id" = Val.vInt (1 + (i : Int)) := by
      simp [getVal, rowGet]
    rw [hpre] at hcast
    simp only [castVal] at hcast
    split at hcast
    · simp only [Option.some.injEq] at hcast
      rw [List.getElem_map, List.getElem_map, List.getElem_range]
      exact hcast.symm
    · exact Option.noConfusion hcast

/-- Claim C4: for every successful merge, the `spot_id` column of the
output is the dense, duplicate-free, 1-based range `1, 2, …, height`,
assigned in join row order. -/
theorem merge_spot_id_dense (m u out : DF) (h : mergeSpotsTables m u = some out) :
    out.rows.map (fun r => getVal r "spot_id")
      = (List.range out.height).map (fun i : Nat => Val.vInt (1 + (i : Int))) := by
  simp only [mergeSpotsTables] at h
  cases hsel : selectCols (dropCol u "spot_id")
      (["chan", "chan_spot_id"] ++ uniqueUnmixedCols (dropCol m "spot_id") (dropCol u "spot_id")) with
  | none => simp only [hsel] at h; exact Option.noConfusion h
  | some us =>
    simp only [hsel] at h
    cases hjoin : leftJoin (dropCol m "spot_id") us ["chan", "chan_spot_id"] with
    | none => simp only [hjoin] at h; exact Option.noConfusion h
    | some joined =>
      simp only [hjoin] at h
      exact optimize_withRowIndex_spot_id h

/-- Witness for C4 at the spec's example tables. -/
theorem merge_spot_id_dense_witness :
    mergedEx.rows.map (fun r => getVal r "spot_id")
      = (List.range mergedEx.height).map (fun i : Nat => Val.vInt (1 + (i : Int))) :=
  merge_spot_id_dense mixedEx unmixedEx mergedEx (by decide)

/-! ## Merge output does not depend on input spot_id columns (C10) -/

theorem map_filter_zipWith_append {rs : List Row} {vs : List Val} (c : String)
    (hlen : vs.length = rs.length) :
    (rs.zipWith (fun r v => r ++ [(c, v)]) vs).map (fun r => r.filter (fun p => p.1 ≠ c))
      = rs.map (fun r => r.filter (fun p => p.1 ≠ c)) := by
  induction rs generalizing vs with
  | nil => simp
  | cons r rest ih =>
    cases vs with
    | nil => simp at hlen
    | cons v vrest =>
      simp only [List.zipWith_cons_cons, List.map_cons]
      rw [ih (by simpa using hlen)]
      congr 1
      rw [List.filter_append]
      simp

theorem dropCol_appendCol (df : DF) (c : String) (dt : DType) (vs : List Val)
    (hlen : vs.length = df.rows.length) :
    dropCol (appendCol df c dt vs) c = dropCol df c := by
  unfold dropCol appendCol
  simp only [DF.mk.injEq]
  constructor
  · rw [List.filter_append]
    simp
  · exact map_filter_zipWith_append c hlen

/-- Claim C10: the merge result is independent of any pre-existing
`spot_id` column in either input — both are dropped before the
unique-unmixed column set, the join, the `unmixed_removed` derivation and
the fresh id assignment, so adding a `spot_id` column (of any dtype and
values) to either table leaves the output unchanged. -/
theorem merge_ignores_input_spot_id (m u : DF) (dtm dtu : DType) (vm vu : List Val)
    (hm : vm.length = m.rows.length) (hu : vu.length = u.rows.length) :
    mergeSpotsTables (appendCol m "spot_id" dtm vm) u = mergeSpotsTables m u
    ∧ mergeSpotsTables m (appendCol u "spot_id" dtu vu) = mergeSpotsTables m u
    ∧ mergeSpotsTables (appendCol m "spot_id" dtm vm) (appendCol u "spot_id" dtu vu)
      = mergeSpotsTables m u := by
  have hdm := dropCol_appendCol m "spot_id" dtm vm hm
  have hdu := dropCol_appendCol u "spot_id" dtu vu hu
  refine ⟨?_, ?_, ?_⟩ <;> simp only [mergeSpotsTables, hdm, hdu]

/-! ## unmixed_removed correctness (C2) -/

theorem optimizeDtypes_rows {df out : DF} (h : optimizeDtypes df = some out) :
    castRows df df.rows = some out.rows := by
  unfold optimizeDtypes at h
  cases hcr : castRows df df.rows with
  | none => rw [hcr] at h; exact Option.noConfusion h
  | some rows =>
    rw [hcr] at h
    simp only [Option.some.injEq] at h
    rw [← h]

theorem schemaGet_map_replace (l : List (String × DType)) (c : String) (dt : DType)
    (hc : c ∈ l.map Prod.fst) :
    schemaGet (l.map (fun p => if p.1 = c then (c, dt) else p)) c = some dt := by
  induction l with
  | nil => cases hc
  | cons p ps ih =>
    by_cases hp : p.1 = c
    · simp [schemaGet, hp]
    · have hc' : c ∈ ps.map Prod.fst := by
        rcases List.mem_map.1 hc with ⟨q, hq, hqc⟩
        cases hq with
        | head => exact absurd hqc hp
        | tail _ hmem =>
          rw [← hqc]
          exact List.mem_map_of_mem Prod.fst hmem
      simp [schemaGet, hp]
      exact ih hc'

theorem schemaGet_append_last (l : List (String × DType)) (c : String) (dt : DType)
    (hc : c ∉ l.map Prod.fst) :
    schemaGet (l ++ [(c, dt)]) c = some dt := by
  induction l with
  | nil => simp [schemaGet]
  | cons p ps ih =>
    have hp : p.1 ≠ c := by
      intro hpc
      exact hc (by simp [hpc])
    have hc' : c ∉ ps.map Prod.fst := fun hm => hc (by simp [hm])
    simp only [List.cons_append, schemaGet, if_neg hp]
    exact ih hc'

theorem schemaGet_setCol (df : DF) (c : String) (dt : DType) (f : Row → Val) :
    schemaGet (setCol df c dt f).schema c = some dt := by
  unfold setCol
  by_cases hc : c ∈ df.colNames
  · rw [if_pos hc]
    exact schemaGet_map_replace df.schema c dt hc
  · rw [if_neg hc]
    exact schemaGet_append_last df.schema c dt hc

theorem castTarget_unmixed_removed (df : DF) (dt : DType) :
    castTarget df "unmixed_removed" dt = some DType.boolean := rfl

theorem colCastTarget_after_rowIndex_ur (df2 : DF)
    (hs : schemaGet df2.schema "unmixed_removed" = some DType.boolean) :
    colCastTarget (withRowIndex df2 "spot_id" 1) "unmixed_removed" = some DType.boolean := by
  unfold colCastTarget
  have hsg : schemaGet (withRowIndex df2 "spot_id" 1).schema "unmixed_removed"
      = some DType.boolean := by
    simp only [withRowIndex, schemaGet]
    rw [if_neg (by decide)]
    exact hs
  rw [hsg]
  rfl

theorem spot_id_not_mem_dropped (df : DF) :
    "spot_id" ∉ (dropCol df "spot_id").colNames := by
  simp only [dropCol, DF.colNames, List.mem_map]
  rintro ⟨p, hp, hp1⟩
  have := (List.mem_filter.1 hp).2
  rw [hp1] at this
  simp at this

theorem mem_uniq_ne_spot_id {a b : DF} {c : String}
    (hc : c ∈ uniqueUnmixedCols a (dropCol b "spot_id")) : c ≠ "spot_id" := by
  intro hcs
  subst hcs
  exact spot_id_not_mem_dropped b (List.mem_filter.1 hc).1

/-- Claim C2 (with the sanity condition that neither input already carries
an `unmixed_removed` column unique to the unmixed side): in every merged
row, `unmixed_removed` is true iff every unique-to-unmixed column is null
in that row; and when the unique-unmixed set is empty, `unmixed_removed`
is false in every row. -/
theorem merge_unmixed_removed_iff (m u out : DF)
    (hur : "unmixed_removed" ∉ uniqueUnmixedCols (dropCol m "spot_id") (dropCol u "spot_id"))
    (h : mergeSpotsTables m u = some out) :
    ∀ r ∈ out.rows,
      (uniqueUnmixedCols (dropCol m "spot_id") (dropCol u "spot_id") ≠ [] →
        (getVal r "unmixed_removed" = Val.vBool true ↔
          ∀ c ∈ uniqueUnmixedCols (dropCol m "spot_id") (dropCol u "spot_id"),
            getVal r c = Val.vNull))
      ∧ (uniqueUnmixedCols (dropCol m "spot_id") (dropCol u "spot_id") = [] →
        getVal r "unmixed_removed" = Val.vBool false) := by
  simp only [mergeSpotsTables] at h
  cases hsel : selectCols (dropCol u "spot_id")
      (["chan", "chan_spot_id"] ++ uniqueUnmixedCols (dropCol m "spot_id") (dropCol u "spot_id")) with
  | none => simp only [hsel] at h; exact Option.noConfusion h
  | some us =>
    simp only [hsel] at h
    cases hjoin : leftJoin (dropCol m "spot_id") us ["chan", "chan_spot_id"] with
    | none => simp only [hjoin] at h; exact Option.noConfusion h
    | some joined =>
      simp only [hjoin] at h
      intro r' hr'
      set uniq := uniqueUnmixedCols (dropCol m "spot_id") (dropCol u "spot_id") with huniq
      set fval : Row → Val :=
        (if uniq.isEmpty then (fun _ => Val.vBool false)
         else (fun r => Val.vBool (allNullB uniq r))) with hfval
      have hmerged2 : (if uniq.isEmpty then
            setCol joined "unmixed_removed" DType.boolean (fun _ => Val.vBool false)
          else
            setCol joined "unmixed_removed" DType.boolean (fun r => Val.vBool (allNullB uniq r)))
          = setCol joined "unmixed_removed" DType.boolean fval := by
        rw [hfval]
        by_cases hq : uniq.isEmpty <;> simp [hq]
      rw [hmerged2] at h
      have hrows := optimizeDtypes_rows h
      have hf := castRows_forall₂ hrows
      rw [List.forall₂_iff_get] at hf
      obtain ⟨hlen, hget⟩ := hf
      rcases List.mem_iff_get.1 hr' with ⟨⟨i, hi⟩, hri⟩
      have h₀ : i < (withRowIndex (setCol joined "unmixed_removed" DType.boolean fval)
          "spot_id" 1).rows.length := by omega
      have hcrow := hget i h₀ hi
      rw [hri] at hcrow
      have hjlen : i < joined.rows.length := by
        have : (withRowIndex (setCol joined "unmixed_removed" DType.boolean fval)
            "spot_id" 1).rows.length = joined.rows.length := by
          simp [withRowIndex, setCol, List.enum_length]
        omega
      have hprerow : (withRowIndex (setCol joined "unmixed_removed" DType.boolean fval)
          "spot_id" 1).rows.get ⟨i, h₀⟩
          = ("spot_id", Val.vInt (1 + (i : Int))) ::
            ((joined.rows[i]).filter (fun p => p.1 ≠ "unmixed_removed")
              ++ [("unmixed_removed", fval (joined.rows[i]))]) := by
        rw [List.get_eq_getElem,
          withRowIndex_rows_getElem _ "spot_id" 1 i h₀ (by simp [setCol]; omega)]
        simp only [setCol, List.getElem_map]
      rw [hprerow] at hcrow
      -- the unmixed_removed value of the output row
      have hbool : getVal r' "unmixed_removed" = fval (joined.rows[i]) := by
        have hcast := castRow_some_getVal hcrow "unmixed_removed"
        rw [colCastTarget_after_rowIndex_ur _
          (schemaGet_setCol joined "unmixed_removed" DType.boolean fval)] at hcast
        have hgv : getVal (("spot_id", Val.vInt (1 + (i : Int))) ::
            ((joined.rows[i]).filter (fun p => p.1 ≠ "unmixed_removed")
              ++ [("unmixed_removed", fval (joined.rows[i]))])) "unmixed_removed"
            = fval (joined.rows[i]) := by
          rw [show getVal (("spot_id", Val.vInt (1 + (i : Int))) :: _) "unmixed_removed"
              = getVal ((joined.rows[i]).filter (fun p => p.1 ≠ "unmixed_removed")
                ++ [("unmixed_removed", fval (joined.rows[i]))]) "unmixed_removed" from by
            simp [getVal, rowGet]]
          exact getVal_setCol_row_self _ _ _
        rw [hgv] at hcast
        have hfb : ∃ b : Bool, fval (joined.rows[i]) = Val.vBool b := by
          rw [hfval]
          by_cases hq : uniq.isEmpty <;> simp [hq]
        rcases hfb with ⟨b, hb⟩
        rw [hb] at hcast ⊢
        simp only [castVal, Option.some.injEq] at hcast
        exact hcast.symm
      -- null-preservation for each unique-unmixed column
      have hnullc : ∀ c ∈ uniq, (getVal r' c = Val.vNull ↔
          getVal (joined.rows[i]) c = Val.vNull) := by
        intro c hc
        have hcur : c ≠ "unmixed_removed" := fun hce => hur (hce ▸ hc)
        have hcs : c ≠ "spot_id" := mem_uniq_ne_spot_id hc
        have hcast := castRow_some_getVal hcrow c
        have hgv : getVal (("spot_id", Val.vInt (1 + (i : Int))) ::
            ((joined.rows[i]).filter (fun p => p.1 ≠ "unmixed_removed")
              ++ [("unmixed_removed", fval (joined.rows[i]))])) c
            = getVal (joined.rows[i]) c := by
          rw [show getVal (("spot_id", Val.vInt (1 + (i : Int))) :: _) c
              = getVal ((joined.rows[i]).filter (fun p => p.1 ≠ "unmixed_removed")
                ++ [("unmixed_removed", fval (joined.rows[i]))]) c from by
            simp [getVal, rowGet, Ne.symm hcs]]
          exact getVal_setCol_row_ne _ _ _ _ hcur
        rw [hgv] at hcast
        cases htc : colCastTarget (withRowIndex (setCol joined "unmixed_removed"
            DType.boolean fval) "spot_id" 1) c with
        | none =>
          rw [htc] at hcast
          simp only [Option.some.injEq] at hcast
          rw [← hcast]
        | some t =>
          rw [htc] at hcast
          exact castVal_null_iff hcast
      constructor
      · intro hne
        have hq : uniq.isEmpty = false := by
          cases hu : uniq with
          | nil => exact absurd hu hne
          | cons a l => simp [hu]
        have hb : fval (joined.rows[i])
            = Val.vBool (allNullB uniq (joined.rows[i])) := by
          rw [hfval]; simp [hq]
        rw [hbool, hb]
        constructor
        · intro ht c hc
          have : allNullB uniq (joined.rows[i]) = true := by
            simpa using ht
          rw [allNullB, List.all_eq_true] at this
          exact (hnullc c hc).2 (by simpa using this c hc)
        · intro hall
          have : allNullB uniq (joined.rows[i]) = true := by
            rw [allNullB, List.all_eq_true]
            intro c hc
            simp only [decide_eq_true_eq]
            exact (hnullc c hc).1 (hall c hc)
          rw [this]
      · intro hempty
        have hq : uniq.isEmpty = true := by rw [hempty]; rfl
        have hb : fval (joined.rows[i]) = Val.vBool false := by
          rw [hfval]; simp [hq]
        rw [hbool, hb]

/-- Witness for C2 at the spec's example tables (second output row: the
`unmixed_chan` value is null, so `unmixed_removed` is true). -/
theorem merge_unmixed_removed_iff_witness :
    (uniqueUnmixedCols (dropCol mixedEx "spot_id") (dropCol unmixedEx "spot_id") ≠ [] →
      (getVal (mergedEx.rows.getD 1 []) "unmixed_removed" = Val.vBool true ↔
        ∀ c ∈ uniqueUnmixedCols (dropCol mixedEx "spot_id") (dropCol unmixedEx "spot_id"),
          getVal (mergedEx.rows.getD 1 []) c = Val.vNull))
    ∧ (uniqueUnmixedCols (dropCol mixedEx "spot_id") (dropCol unmixedEx "spot_id") = [] →
      getVal (mergedEx.rows.getD 1 []) "unmixed_removed" = Val.vBool false) :=
  merge_unmixed_removed_iff mixedEx unmixedEx mergedEx (by decide) (by decide)
    (mergedEx.rows.getD 1 []) (by decide)

/-- Witness for C10 at the spec's example tables with concrete stray
`spot_id` columns. -/
theorem merge_ignores_input_spot_id_witness :
    mergeSpotsTables (appendCol mixedEx "spot_id" DType.int64
        [Val.vInt 9, Val.vInt 8, Val.vInt 7]) unmixedEx
      = mergeSpotsTables mixedEx unmixedEx
    ∧ mergeSpotsTables mixedEx (appendCol unmixedEx "spot_id" DType.int64
        [Val.vInt 5, Val.vInt 4])
      = mergeSpotsTables mixedEx unmixedEx
    ∧ mergeSpotsTables (appendCol mixedEx "spot_id" DType.int64
        [Val.vInt 9, Val.vInt 8, Val.vInt 7]) (appendCol unmixedEx "spot_id" DType.int64
        [Val.vInt 5, Val.vInt 4])
      = mergeSpotsTables mixedEx unmixedEx :=
  merge_ignores_input_spot_id mixedEx unmixedEx DType.int64 DType.int64
    [Val.vInt 9, Val.vInt 8, Val.vInt 7] [Val.vInt 5, Val.vInt 4] (by decide) (by decide)

/-! ## Ordering lemmas for the sankey sorts (C6, C7) -/

theorem mem_insertSorted {le : α → α → Bool} {x a : α} {l : List α} :
    a ∈ insertSorted le x l ↔ a = x ∨ a ∈ l := by
  induction l with
  | nil => simp [insertSorted]
  | cons y ys ih =>
    by_cases hxy : le x y = true
    · simp [insertSorted, hxy]
    · simp only [insertSorted, if_neg hxy, List.mem_cons, ih]
      tauto

theorem pairwise_insertSorted {le : α → α → Bool}
    (htrans : ∀ a b c, le a b = true → le b c = true → le a c = true)
    (htotal : ∀ a b, le a b = true ∨ le b a = true)
    {x : α} {l : List α} (hp : l.Pairwise (fun a b => le a b = true)) :
    (insertSorted le x l).Pairwise (fun a b => le a b = true) := by
  induction l with
  | nil => simp [insertSorted]
  | cons y ys ih =>
    obtain ⟨hy, hys⟩ := List.pairwise_cons.1 hp
    by_cases hxy : le x y = true
    · rw [insertSorted, if_pos hxy]
      refine List.Pairwise.cons ?_ (List.Pairwise.cons hy hys)
      intro b hb
      rcases List.mem_cons.1 hb with hbe | hb
      · subst hbe
        exact hxy
      · exact htrans x y b hxy (hy b hb)
    · rw [insertSorted, if_neg hxy]
      refine List.Pairwise.cons ?_ (ih hys)
      intro b hb
      rcases mem_insertSorted.1 hb with hbx | hb
      · rw [hbx]
        rcases htotal x y with hx | hx
        · exact absurd hx hxy
        · exact hx
      · exact hy b hb

theorem pairwise_sortBy {le : α → α → Bool}
    (htrans : ∀ a b c, le a b = true → le b c = true → le a c = true)
    (htotal : ∀ a b, le a b = true ∨ le b a = true) (l : List α) :
    (sortBy le l).Pairwise (fun a b => le a b = true) := by
  induction l with
  | nil => exact List.Pairwise.nil
  | cons x xs ih => exact pairwise_insertSorted htrans htotal ih

theorem strLeAux_total (as bs : List Char) :
    strLeAux as bs = true ∨ strLeAux bs as = true := by
  induction as generalizing bs with
  | nil => left; rfl
  | cons a as ih =>
    cases bs with
    | nil => right; rfl
    | cons b bs =>
      by_cases h1 : a.toNat < b.toNat
      · left; simp [strLeAux, h1]
      · by_cases h2 : b.toNat < a.toNat
        · right; simp [strLeAux, h2]
        · rcases ih bs with h | h
          · left; simp [strLeAux, h1, h2, h]
          · right; simp [strLeAux, h1, h2, h]

theorem strLeAux_trans : ∀ (as : List Char) {bs cs : List Char},
    strLeAux as bs = true → strLeAux bs cs = true → strLeAux as cs = true := by
  intro as
  induction as with
  | nil => intro bs cs h1 h2; rfl
  | cons a as ih =>
    intro bs cs h1 h2
    cases bs with
    | nil => simp [strLeAux] at h1
    | cons b bs =>
      cases cs with
      | nil => simp [strLeAux] at h2
      | cons c cs =>
        simp only [strLeAux] at h1 h2 ⊢
        rcases Nat.lt_trichotomy a.toNat b.toNat with hab | hab | hab
        · rcases Nat.lt_trichotomy b.toNat c.toNat with hbc | hbc | hbc
          · simp [show a.toNat < c.toNat by omega]
          · simp [show a.toNat < c.toNat by omega]
          · rw [if_neg (by omega), if_pos (by omega)] at h2
            exact absurd h2 (by simp)
        · rw [if_neg (by omega), if_neg (by omega)] at h1
          rcases Nat.lt_trichotomy b.toNat c.toNat with hbc | hbc | hbc
          · simp [show a.toNat < c.toNat by omega]
          · rw [if_neg (by omega), if_neg (by omega)] at h2
            rw [if_neg (by omega), if_neg (by omega)]
            exact ih h1 h2
          · rw [if_neg (by omega), if_pos (by omega)] at h2
            exact absurd h2 (by simp)
        · rw [if_neg (by omega), if_pos (by omega)] at h1
          exact absurd h1 (by simp)

theorem strLe_total (a b : String) : strLe a b = true ∨ strLe b a = true :=
  strLeAux_total a.data b.data

theorem strLe_trans {a b c : String} (h1 : strLe a b = true) (h2 : strLe b c = true) :
    strLe a c = true :=
  strLeAux_trans a.data h1 h2

theorem valLe_total (v w : Val) : valLe v w = true ∨ valLe w v = true := by
  cases v <;> cases w <;>
    simp only [valLe, valRank, decide_eq_true_eq] <;>
    first
      | exact strLe_total ..
      | exact le_total ..
      | omega
      | simp

theorem valLe_trans (u v w : Val) (h1 : valLe u v = true) (h2 : valLe v w = true) :
    valLe u w = true := by
  cases u <;> cases v <;> cases w <;>
    simp only [valLe, valRank, decide_eq_true_eq] at h1 h2 ⊢ <;>
    first
      | exact strLe_trans h1 h2
      | exact le_trans h1 h2
      | omega
      | simp

theorem removedLastLe_total (v w : Val) :
    removedLastLe v w = true ∨ removedLastLe w v = true := by
  unfold removedLastLe
  by_cases hv : v = Val.vStr "Removed" <;> by_cases hw : w = Val.vStr "Removed" <;>
    simp [hv, hw] <;>
    first
      | decide
      | exact valLe_total _ _

theorem removedLastLe_trans (u v w : Val) (h1 : removedLastLe u v = true)
    (h2 : removedLastLe v w = true) : removedLastLe u w = true := by
  unfold removedLastLe at h1 h2 ⊢
  by_cases hu : u = Val.vStr "Removed" <;> by_cases hv : v = Val.vStr "Removed" <;>
    by_cases hw : w = Val.vStr "Removed" <;>
    simp [hu, hv, hw] at h1 h2 ⊢ <;>
    first
      | exact valLe_trans u v w h1 h2
      | exact h1
      | exact h2

theorem removed_last_of_pairwise {l : List Val}
    (hp : l.Pairwise (fun a b => removedLastLe a b = true))
    (hm : Val.vStr "Removed" ∈ l) : l.getLast? = some (Val.vStr "Removed") := by
  have hne : l ≠ [] := List.ne_nil_of_mem hm
  rw [List.getLast?_eq_getLast l hne]
  by_cases hx : l.getLast hne = Val.vStr "Removed"
  · rw [hx]
  · exfalso
    have hsplit := List.dropLast_append_getLast hne
    rw [← hsplit] at hp hm
    rcases List.mem_append.1 hm with hdl | hlast
    · rw [List.pairwise_append] at hp
      have hrel := hp.2.2 _ hdl (l.getLast hne) (by simp)
      rw [removedLastLe] at hrel
      rw [if_neg (by simp [hx])] at hrel
      simp at hrel
    · simp only [List.mem_singleton] at hlast
      exact hx hlast.symm

/-! ## Flow-summary threshold (C6) -/

/-- Claim C6: the flow calculation uses the significance threshold
`max(5, floor(0.001 * total rows))`, emits a link only for pairs whose
count reaches it, reports the total row count and the threshold used; and
on the 3-row example merged table it yields 0 links with
`total_spots = 3`. -/
theorem sankey_threshold :
    (∀ df : DF,
      (calculateSankeyData df).threshold_used = max 5 (df.height / 1000)
      ∧ (calculateSankeyData df).total_spots = df.height
      ∧ ∀ l ∈ (calculateSankeyData df).links, max 5 (df.height / 1000) ≤ l.value)
    ∧ (calculateSankeyData mergedEx).links = []
    ∧ (calculateSankeyData mergedEx).total_spots = 3 := by
  refine ⟨fun df => ⟨rfl, rfl, ?_⟩, by decide, by decide⟩
  intro l hl
  simp only [calculateSankeyData] at hl
  rcases List.mem_filterMap.1 hl with ⟨p, hp, hf⟩
  split at hf
  · rename_i hcnt
    cases hf
    exact hcnt
  · exact Option.noConfusion hf

/-- Witness for C6's link-threshold clause at a concrete 5-row table whose
single flow pair reaches the minimum threshold. -/
theorem sankey_threshold_witness :
    max 5 (reassignedDf.height / 1000)
      ≤ (SankeyLink.mk (Val.vStr "488") (Val.vStr "561") 5 "reassigned").value :=
  (sankey_threshold.1 reassignedDf).2.2
    (SankeyLink.mk (Val.vStr "488") (Val.vStr "561") 5 "reassigned") (by decide)

/-! ## Flow-summary final channel (C7) -/

/-- Claim C7 (amended): the final channel of a row is `unmixed_chan` with
the sentinel `"Removed"` substituted exactly when that value is null, the
string `"none"`, or the empty string (the original claim omitted the
`"none"` case); `"Removed"` is ordered last among the distinct final
channels; and each retained link is labeled `"unchanged"` when origin
equals final, `"removed"` when final is `"Removed"`, else
`"reassigned"`. -/
theorem sankey_final_channel (df : DF) :
    (∀ r ∈ df.rows,
        finalChanVal (getVal r "unmixed_chan")
          = if getVal r "unmixed_chan" = Val.vNull
              ∨ getVal r "unmixed_chan" = Val.vStr "none"
              ∨ getVal r "unmixed_chan" = Val.vStr "" then Val.vStr "Removed"
            else getVal r "unmixed_chan")
    ∧ (Val.vStr "Removed" ∈ (calculateSankeyData df).final_channels →
        (calculateSankeyData df).final_channels.getLast? = some (Val.vStr "Removed"))
    ∧ (∀ l ∈ (calculateSankeyData df).links,
        l.flow_type = if l.origin = l.final then "unchanged"
          else if l.final = Val.vStr "Removed" then "removed" else "reassigned") := by
  refine ⟨fun r _ => rfl, ?_, ?_⟩
  · intro hm
    exact removed_last_of_pairwise
      (pairwise_sortBy removedLastLe_trans removedLastLe_total _) hm
  · intro l hl
    simp only [calculateSankeyData] at hl
    rcases List.mem_filterMap.1 hl with ⟨p, hp, hf⟩
    split at hf
    · cases hf
      rfl
    · exact Option.noConfusion hf

/-- Witness for C7 (amended) instantiating all three clauses: the
row-level final-channel equation at a concrete row, the Removed-last node
ordering on a table with a removed flow, and the link label on a
reassigned flow. -/
theorem sankey_final_channel_witness :
    (finalChanVal (getVal [("chan", Val.vStr "488"), ("unmixed_chan", Val.vStr "none")]
        "unmixed_chan")
      = if getVal [("chan", Val.vStr "488"), ("unmixed_chan", Val.vStr "none")]
            "unmixed_chan" = Val.vNull
          ∨ getVal [("chan", Val.vStr "488"), ("unmixed_chan", Val.vStr "none")]
            "unmixed_chan" = Val.vStr "none"
          ∨ getVal [("chan", Val.vStr "488"), ("unmixed_chan", Val.vStr "none")]
            "unmixed_chan" = Val.vStr "" then Val.vStr "Removed"
        else getVal [("chan", Val.vStr "488"), ("unmixed_chan", Val.vStr "none")]
          "unmixed_chan")
    ∧ (calculateSankeyData noneChanDf).final_channels.getLast? = some (Val.vStr "Removed")
    ∧ (SankeyLink.mk (Val.vStr "488") (Val.vStr "561") 5 "reassigned").flow_type
      = if (Val.vStr "488" : Val) = Val.vStr "561" then "unchanged"
        else if (Val.vStr "561" : Val) = Val.vStr "Removed" then "removed"
        else "reassigned" :=
  ⟨(sankey_final_channel noneChanDf).1 _ (by decide),
   (sankey_final_channel noneChanDf).2.1 (by decide),
   (sankey_final_channel reassignedDf).2.2
     (SankeyLink.mk (Val.vStr "488") (Val.vStr "561") 5 "reassigned") (by decide)⟩


/-! ## Rounding lemmas (C5, C9) -/

theorem roundHalfEven_intCast (n : ℤ) : roundHalfEven (n : ℚ) = n := by
  unfold roundHalfEven
  simp [Int.floor_intCast]

theorem roundHalfEven_nonneg {q : ℚ} (h : 0 ≤ q) : 0 ≤ roundHalfEven q := by
  have h0 : 0 ≤ ⌊q⌋ := Int.floor_nonneg.2 h
  unfold roundHalfEven
  split
  · exact h0
  · split
    · omega
    · split <;> omega

theorem roundHalfEven_le {q : ℚ} {k : ℤ} (h : q < k + 1/2) : roundHalfEven q ≤ k := by
  have hfl : ⌊q⌋ ≤ k := by
    have h1 : (⌊q⌋ : ℚ) ≤ q := Int.floor_le q
    by_contra hc
    push_neg at hc
    have h2 : (k : ℚ) + 1 ≤ (⌊q⌋ : ℚ) := by exact_mod_cast hc
    linarith
  unfold roundHalfEven
  by_cases h1 : q - ⌊q⌋ < 1/2
  · rw [if_pos h1]
    exact hfl
  · rw [if_neg h1]
    by_cases h2 : 1/2 < q - ⌊q⌋
    · rw [if_pos h2]
      have h3 : (⌊q⌋ : ℚ) + 1/2 < q := by linarith
      have h4 : (⌊q⌋ : ℚ) < (k : ℚ) := by linarith
      have h5 : ⌊q⌋ < k := by exact_mod_cast h4
      omega
    · rw [if_neg h2]
      have heq : q = ⌊q⌋ + 1/2 := by
        have e1 := not_lt.1 h1
        have e2 := not_lt.1 h2
        linarith
      have h4 : (⌊q⌋ : ℚ) < (k : ℚ) := by
        rw [heq] at h
        linarith
      have h5 : ⌊q⌋ < k := by exact_mod_cast h4
      split <;> omega

theorem roundF32_zero : roundF32 0 = 0 := by
  simp [roundF32]

theorem roundF32_neg (q : ℚ) : roundF32 (-q) = -roundF32 q := by
  by_cases h0 : q = 0
  · subst h0
    simp [roundF32]
  · unfold roundF32
    rw [if_neg h0, if_neg (neg_ne_zero.2 h0), abs_neg]
    rcases lt_trichotomy q 0 with hlt | heq | hgt
    · rw [if_neg (show ¬ -q < 0 by linarith), if_pos hlt]
      ring
    · exact absurd heq h0
    · rw [if_pos (show -q < 0 by linarith), if_neg (show ¬ q < 0 by linarith)]

theorem roundF32_pos_eq {q : ℚ} (hq : 0 < q) :
    roundF32 q = (roundHalfEven (q / 2 ^ (max (Int.log 2 q) (-126) - 23)) : ℚ)
        * 2 ^ (max (Int.log 2 q) (-126) - 23) := by
  unfold roundF32
  rw [if_neg (ne_of_gt hq), if_neg (not_lt.2 (le_of_lt hq)), abs_of_pos hq]

theorem two_zpow_pos (z : ℤ) : (0 : ℚ) < 2 ^ z := by positivity

theorem q_lt_zpow_succ {q : ℚ} (hq : 0 < q) :
    q < 2 ^ (max (Int.log 2 q) (-126) + 1) := by
  have h1 : q < (2 : ℚ) ^ (Int.log 2 q + 1) := by
    have := Int.lt_zpow_succ_log_self (R := ℚ) (b := 2) (by norm_num) q
    push_cast at this
    exact this
  have h2 : (2 : ℚ) ^ (Int.log 2 q + 1) ≤ 2 ^ (max (Int.log 2 q) (-126) + 1) :=
    zpow_le_zpow_right₀ (by norm_num) (by omega)
  linarith

theorem roundF32_n_nonneg {q : ℚ} (hq : 0 < q) :
    0 ≤ roundHalfEven (q / 2 ^ (max (Int.log 2 q) (-126) - 23)) := by
  apply roundHalfEven_nonneg
  positivity

theorem roundF32_n_le {q : ℚ} (hq : 0 < q) :
    roundHalfEven (q / 2 ^ (max (Int.log 2 q) (-126) - 23)) ≤ 2 ^ 24 := by
  apply roundHalfEven_le
  have hupos := two_zpow_pos (max (Int.log 2 q) (-126) - 23)
  have hdiv : q / 2 ^ (max (Int.log 2 q) (-126) - 23) < 2 ^ (24 : ℕ) := by
    rw [div_lt_iff hupos]
    have hsplit : (2 : ℚ) ^ (max (Int.log 2 q) (-126) + 1)
        = 2 ^ (24 : ℕ) * 2 ^ (max (Int.log 2 q) (-126) - 23) := by
      rw [show ((2 : ℚ) ^ (24 : ℕ)) = (2 : ℚ) ^ ((24 : ℕ) : ℤ) from (zpow_natCast 2 24).symm,
        ← zpow_add₀ (two_ne_zero)]
      congr 1
      omega
    rw [← hsplit]
    exact q_lt_zpow_succ hq
  have hcast : ((2 ^ 24 : ℤ) : ℚ) = 2 ^ (24 : ℕ) := by push_cast; ring
  rw [hcast]
  linarith

theorem roundF32_nonneg {q : ℚ} (hq : 0 < q) : 0 ≤ roundF32 q := by
  rw [roundF32_pos_eq hq]
  have := roundF32_n_nonneg hq
  have hupos := two_zpow_pos (max (Int.log 2 q) (-126) - 23)
  have hn : (0 : ℚ) ≤ (roundHalfEven (q / 2 ^ (max (Int.log 2 q) (-126) - 23)) : ℚ) := by
    exact_mod_cast this
  positivity

theorem roundF32_zpow {z : ℤ} (hz : -126 ≤ z) : roundF32 ((2 : ℚ) ^ z) = 2 ^ z := by
  have hpos : (0 : ℚ) < 2 ^ z := two_zpow_pos z
  rw [roundF32_pos_eq hpos]
  have hlog : Int.log 2 ((2 : ℚ) ^ z) = z := by
    have := Int.log_zpow (R := ℚ) (b := 2) (by norm_num) z
    push_cast at this
    exact this
  rw [hlog, max_eq_left hz]
  have hframe : (2 : ℚ) ^ z / 2 ^ (z - 23) = ((2 ^ 23 : ℤ) : ℚ) := by
    rw [← zpow_sub₀ (two_ne_zero : (2 : ℚ) ≠ 0)]
    have : z - (z - 23) = ((23 : ℕ) : ℤ) := by omega
    rw [this, zpow_natCast]
    push_cast
    ring
  rw [hframe, roundHalfEven_intCast]
  rw [show (((2 ^ 23 : ℤ)) : ℚ) = 2 ^ ((23 : ℕ) : ℤ) by rw [zpow_natCast]; push_cast; ring]
  rw [← zpow_add₀ (two_ne_zero : (2 : ℚ) ≠ 0)]
  congr 1
  omega

theorem roundF32_idem_pos {q : ℚ} (hq : 0 < q) :
    roundF32 (roundF32 q) = roundF32 q := by
  have he_ge : (-126 : ℤ) ≤ max (Int.log 2 q) (-126) := le_max_right _ _
  have heq := roundF32_pos_eq hq
  have hn0 := roundF32_n_nonneg hq
  have hn24 := roundF32_n_le hq
  set E := max (Int.log 2 q) (-126) with hE
  set N := roundHalfEven (q / 2 ^ (E - 23)) with hN
  rcases eq_or_lt_of_le hn0 with hn0' | hnpos
  · rw [heq, ← hn0']
    simp [roundF32_zero]
  · rcases eq_or_lt_of_le hn24 with hn24e | hnlt
    · have hr : roundF32 q = (2 : ℚ) ^ (E + 1) := by
        rw [heq, hn24e]
        push_cast
        rw [show (16777216 : ℚ) = (2 : ℚ) ^ ((24 : ℕ) : ℤ) by rw [zpow_natCast]; norm_num,
          ← zpow_add₀ (two_ne_zero : (2 : ℚ) ≠ 0)]
        congr 1
        omega
      rw [hr]
      exact roundF32_zpow (by omega)
    · have hNpos : (0 : ℚ) < (N : ℚ) := by exact_mod_cast hnpos
      have hupos := two_zpow_pos (E - 23)
      have hrpos : 0 < roundF32 q := by
        rw [heq]
        positivity
      have hrlt : roundF32 q < 2 ^ (E + 1) := by
        rw [heq]
        have hc : (N : ℚ) < ((2 ^ 24 : ℤ) : ℚ) := by exact_mod_cast hnlt
        calc (N : ℚ) * 2 ^ (E - 23)
            < ((2 ^ 24 : ℤ) : ℚ) * 2 ^ (E - 23) := mul_lt_mul_of_pos_right hc hupos
          _ = 2 ^ (E + 1) := by
              rw [show (((2 ^ 24 : ℤ)) : ℚ) = 2 ^ ((24 : ℕ) : ℤ) by
                rw [zpow_natCast]; push_cast; ring]
              rw [← zpow_add₀ (two_ne_zero : (2 : ℚ) ≠ 0)]
              congr 1
              omega
      have hlogr : Int.log 2 (roundF32 q) ≤ E := by
        have hx : roundF32 q < ((2 : ℕ) : ℚ) ^ (E + 1) := by
          push_cast
          exact hrlt
        have := (Int.lt_zpow_iff_log_lt (R := ℚ) (b := 2) (by norm_num) hrpos).1 hx
        omega
      set E' := max (Int.log 2 (roundF32 q)) (-126) with hE'
      have he' : E' ≤ E := max_le hlogr he_ge
      have he'ge : (-126 : ℤ) ≤ E' := le_max_right _ _
      have hm : roundF32 q / 2 ^ (E' - 23) = ((N * 2 ^ (E - E').toNat : ℤ) : ℚ) := by
        rw [div_eq_iff (ne_of_gt (two_zpow_pos _))]
        rw [heq]
        push_cast
        rw [show ((2 : ℚ) ^ (E - E').toNat) = (2 : ℚ) ^ (((E - E').toNat : ℕ) : ℤ) from
          (zpow_natCast 2 _).symm]
        rw [Int.toNat_of_nonneg (by omega)]
        rw [mul_assoc, ← zpow_add₀ (two_ne_zero : (2 : ℚ) ≠ 0)]
        congr 2
        omega
      rw [roundF32_pos_eq hrpos, ← hE', hm, roundHalfEven_intCast]
      push_cast
      rw [show ((2 : ℚ) ^ (E - E').toNat) = (2 : ℚ) ^ (((E - E').toNat : ℕ) : ℤ) from
        (zpow_natCast 2 _).symm]
      rw [Int.toNat_of_nonneg (by omega)]
      rw [mul_assoc, ← zpow_add₀ (two_ne_zero : (2 : ℚ) ≠ 0)]
      rw [heq]
      congr 2
      omega

theorem floatRangeLimit_pos : (0 : ℚ) < floatRangeLimit := by
  norm_num [floatRangeLimit]

theorem roundF32_lt_limit_pos {q : ℚ} (hq : 0 < q) (h : q < floatRangeLimit) :
    roundF32 q < floatRangeLimit := by
  have he_ge : (-126 : ℤ) ≤ max (Int.log 2 q) (-126) := le_max_right _ _
  have heq := roundF32_pos_eq hq
  have hn0 := roundF32_n_nonneg hq
  have hn24 := roundF32_n_le hq
  set E := max (Int.log 2 q) (-126) with hE
  set N := roundHalfEven (q / 2 ^ (E - 23)) with hN
  by_cases hle : E ≤ 126
  · have hupos := two_zpow_pos (E - 23)
    have hup : roundF32 q ≤ 2 ^ (E + 1) := by
      rw [heq]
      have hc : (N : ℚ) ≤ ((2 ^ 24 : ℤ) : ℚ) := by exact_mod_cast hn24
      calc (N : ℚ) * 2 ^ (E - 23)
          ≤ ((2 ^ 24 : ℤ) : ℚ) * 2 ^ (E - 23) :=
            mul_le_mul_of_nonneg_right hc (le_of_lt hupos)
        _ = 2 ^ (E + 1) := by
            rw [show (((2 ^ 24 : ℤ)) : ℚ) = 2 ^ ((24 : ℕ) : ℤ) by
              rw [zpow_natCast]; push_cast; ring]
            rw [← zpow_add₀ (two_ne_zero : (2 : ℚ) ≠ 0)]
            congr 1
            omega
    have h127 : (2 : ℚ) ^ (E + 1) ≤ 2 ^ (127 : ℤ) :=
      zpow_le_zpow_right₀ (by norm_num) (by omega)
    have hL : (2 : ℚ) ^ (127 : ℤ) < floatRangeLimit := by
      rw [show ((127 : ℤ)) = ((127 : ℕ) : ℤ) by norm_num, zpow_natCast]
      norm_num [floatRangeLimit]
    linarith
  · push_neg at hle
    have hlogE : Int.log 2 q = E := by
      rcases max_choice (Int.log 2 q) (-126) with hc | hc <;> omega
    have hlog_lt : Int.log 2 q < 128 := by
      by_contra hcc
      push_neg at hcc
      have h1 : ((2 : ℕ) : ℚ) ^ (Int.log 2 q) ≤ q :=
        Int.zpow_log_le_self (by norm_num) hq
      have h2 : ((2 : ℕ) : ℚ) ^ ((128 : ℤ)) ≤ ((2 : ℕ) : ℚ) ^ (Int.log 2 q) :=
        zpow_le_zpow_right₀ (by norm_num) (by omega)
      have h3 : ((2 : ℕ) : ℚ) ^ ((128 : ℤ)) = (2 : ℚ) ^ (128 : ℕ) := by
        push_cast
        rw [show ((128 : ℤ)) = ((128 : ℕ) : ℤ) by norm_num, zpow_natCast]
      have hL2 : floatRangeLimit < (2 : ℚ) ^ (128 : ℕ) := by
        norm_num [floatRangeLimit]
      rw [h3] at h2
      linarith
    have hE127 : E = 127 := by omega
    have hNK : N ≤ 16763294 := by
      rw [hN]
      apply roundHalfEven_le
      rw [hE127]
      have hupos : (0 : ℚ) < 2 ^ ((127 : ℤ) - 23) := two_zpow_pos _
      rw [div_lt_iff hupos]
      have hLle : floatRangeLimit ≤ ((16763294 : ℚ) + 1/2) * 2 ^ ((127 : ℤ) - 23) := by
        rw [show ((127 : ℤ) - 23) = ((104 : ℕ) : ℤ) by norm_num, zpow_natCast]
        norm_num [floatRangeLimit]
      push_cast
      linarith
    rw [heq, hE127]
    have hupos : (0 : ℚ) < 2 ^ ((127 : ℤ) - 23) := two_zpow_pos _
    have hc : (N : ℚ) ≤ (16763294 : ℚ) := by exact_mod_cast hNK
    have hmul : (N : ℚ) * 2 ^ ((127 : ℤ) - 23) ≤ 16763294 * 2 ^ ((127 : ℤ) - 23) :=
      mul_le_mul_of_nonneg_right hc (le_of_lt hupos)
    have hKL : (16763294 : ℚ) * 2 ^ ((127 : ℤ) - 23) < floatRangeLimit := by
      rw [show ((127 : ℤ) - 23) = ((104 : ℕ) : ℤ) by norm_num, zpow_natCast]
      norm_num [floatRangeLimit]
    linarith

theorem abs_roundF32_lt_limit {q : ℚ} (h : |q| < floatRangeLimit) :
    |roundF32 q| < floatRangeLimit := by
  rcases lt_trichotomy q 0 with hneg | hzero | hpos
  · have hq : roundF32 q = -roundF32 (-q) := by
      rw [← roundF32_neg, neg_neg]
    rw [hq, abs_neg]
    have hpos' : 0 < -q := by linarith
    have h' : -q < floatRangeLimit := by
      rw [abs_of_neg hneg] at h
      exact h
    rw [abs_of_nonneg (roundF32_nonneg hpos')]
    exact roundF32_lt_limit_pos hpos' h'
  · subst hzero
    rw [roundF32_zero]
    simpa using floatRangeLimit_pos
  · have h' : q < floatRangeLimit := by
      rw [abs_of_pos hpos] at h
      exact h
    rw [abs_of_nonneg (roundF32_nonneg hpos)]
    exact roundF32_lt_limit_pos hpos h'


theorem roundF32_idem (q : ℚ) : roundF32 (roundF32 q) = roundF32 q := by
  rcases lt_trichotomy q 0 with hneg | hzero | hpos
  · have hq : roundF32 q = -roundF32 (-q) := by
      rw [← roundF32_neg, neg_neg]
    rw [hq, roundF32_neg, roundF32_idem_pos (by linarith)]
  · subst hzero
    rw [roundF32_zero, roundF32_zero]
  · exact roundF32_idem_pos hpos

/-! ## `optimize_dtypes` machinery (C5, C9) -/

theorem castVal_float64_id {v w : Val} (h : castVal v DType.float64 = some w) : w = v := by
  cases v <;> simp only [castVal] at h <;> simp_all

theorem castVal_fixed {v w : Val} {t : DType} (h : castVal v t = some w) :
    castVal w t = some w := by
  cases v <;> cases t <;>
    simp only [castVal] at h <;>
    (try split at h) <;> (try split at h) <;>
    (try simp only [Option.some.injEq] at h) <;>
    (try subst h) <;>
    simp_all [castVal, roundF32_idem]

theorem listMaxQ_eq_none {l : List ℚ} : listMaxQ l = none ↔ l = [] := by
  cases l with
  | nil => simp [listMaxQ]
  | cons x xs =>
    simp only [listMaxQ]
    cases listMaxQ xs <;> simp

theorem listMinQ_eq_none {l : List ℚ} : listMinQ l = none ↔ l = [] := by
  cases l with
  | nil => simp [listMinQ]
  | cons x xs =>
    simp only [listMinQ]
    cases listMinQ xs <;> simp

theorem listMaxQ_le {l : List ℚ} {m x : ℚ} (h : listMaxQ l = some m) (hx : x ∈ l) :
    x ≤ m := by
  induction l generalizing m with
  | nil => cases hx
  | cons y ys ih =>
    simp only [listMaxQ] at h
    cases hys : listMaxQ ys with
    | none =>
      rw [hys] at h
      simp only [Option.some.injEq] at h
      subst h
      have hnil : ys = [] := listMaxQ_eq_none.1 hys
      subst hnil
      rcases List.mem_cons.1 hx with hxy | hxm
      · exact le_of_eq hxy
      · cases hxm
    | some m' =>
      rw [hys] at h
      simp only [Option.some.injEq] at h
      subst h
      rcases List.mem_cons.1 hx with hxy | hxm
      · rw [hxy]; exact le_max_left _ _
      · exact le_trans (ih hys hxm) (le_max_right _ _)

theorem listMinQ_ge {l : List ℚ} {m x : ℚ} (h : listMinQ l = some m) (hx : x ∈ l) :
    m ≤ x := by
  induction l generalizing m with
  | nil => cases hx
  | cons y ys ih =>
    simp only [listMinQ] at h
    cases hys : listMinQ ys with
    | none =>
      rw [hys] at h
      simp only [Option.some.injEq] at h
      subst h
      have hnil : ys = [] := listMinQ_eq_none.1 hys
      subst hnil
      rcases List.mem_cons.1 hx with hxy | hxm
      · exact ge_of_eq hxy
      · cases hxm
    | some m' =>
      rw [hys] at h
      simp only [Option.some.injEq] at h
      subst h
      rcases List.mem_cons.1 hx with hxy | hxm
      · rw [hxy]; exact min_le_left _ _
      · exact le_trans (min_le_right _ _) (ih hys hxm)

theorem listMaxQ_mem {l : List ℚ} {m : ℚ} (h : listMaxQ l = some m) : m ∈ l := by
  induction l generalizing m with
  | nil => simp [listMaxQ] at h
  | cons y ys ih =>
    simp only [listMaxQ] at h
    cases hys : listMaxQ ys with
    | none =>
      rw [hys] at h
      simp only [Option.some.injEq] at h
      subst h
      simp
    | some m' =>
      rw [hys] at h
      simp only [Option.some.injEq] at h
      subst h
      rcases max_choice y m' with hc | hc
      · rw [hc]; simp
      · rw [hc]
        exact List.mem_cons_of_mem _ (ih hys)

theorem listMinQ_mem {l : List ℚ} {m : ℚ} (h : listMinQ l = some m) : m ∈ l := by
  induction l generalizing m with
  | nil => simp [listMinQ] at h
  | cons y ys ih =>
    simp only [listMinQ] at h
    cases hys : listMinQ ys with
    | none =>
      rw [hys] at h
      simp only [Option.some.injEq] at h
      subst h
      simp
    | some m' =>
      rw [hys] at h
      simp only [Option.some.injEq] at h
      subst h
      rcases min_choice y m' with hc | hc
      · rw [hc]; simp
      · rw [hc]
        exact List.mem_cons_of_mem _ (ih hys)

theorem optimizeDtypes_schema {df out : DF} (h : optimizeDtypes df = some out) :
    out.schema = df.schema.map (fun p => (p.1, (colCastTarget df p.1).getD p.2)) := by
  unfold optimizeDtypes at h
  cases hcr : castRows df df.rows with
  | none => rw [hcr] at h; exact Option.noConfusion h
  | some rows =>
    rw [hcr] at h
    simp only [Option.some.injEq] at h
    rw [← h]

theorem schemaGet_map_targets (l : List (String × DType)) (g : String → DType → DType)
    (c : String) :
    schemaGet (l.map (fun p => (p.1, g p.1 p.2))) c = (schemaGet l c).map (g c) := by
  induction l with
  | nil => rfl
  | cons p ps ih =>
    by_cases hp : p.1 = c
    · simp [schemaGet, hp]
    · simp only [List.map_cons, schemaGet, hp, if_false, if_neg hp]
      exact ih

theorem forall₂_castVal_of_castRows {df : DF} {rows' : List Row} {c : String} {t : DType}
    (h : castRows df df.rows = some rows') (hc : colCastTarget df c = some t) :
    List.Forall₂ (fun r r' => castVal (getVal r c) t = some (getVal r' c)) df.rows rows' := by
  refine (castRows_forall₂ h).imp ?_
  intro r r' hr
  have := castRow_some_getVal hr c
  rw [hc] at this
  exact this

theorem forall₂_id_of_castRows {df : DF} {rows' : List Row} {c : String}
    (h : castRows df df.rows = some rows') (hc : colCastTarget df c = none) :
    List.Forall₂ (fun r r' => getVal r' c = getVal r c) df.rows rows' := by
  refine (castRows_forall₂ h).imp ?_
  intro r r' hr
  have := castRow_some_getVal hr c
  rw [hc] at this
  simp only [Option.some.injEq] at this
  exact this.symm

theorem filterMap_floatCell_id {c : String} {rs rs' : List Row}
    (h : List.Forall₂ (fun r r' => getVal r' c = getVal r c) rs rs') :
    rs'.filterMap (floatCell c) = rs.filterMap (floatCell c) := by
  induction h with
  | nil => rfl
  | cons hr _ ih =>
    simp only [List.filterMap_cons]
    rw [floatCell, floatCell, hr, ih]

theorem filterMap_floatCell_round {c : String} {rs rs' : List Row}
    (h : List.Forall₂ (fun r r' =>
      castVal (getVal r c) DType.float32 = some (getVal r' c)) rs rs') :
    rs'.filterMap (floatCell c) = (rs.filterMap (floatCell c)).map roundF32 := by
  induction h with
  | nil => rfl
  | cons hr hrest ih =>
    rename_i r r' rsa rsb
    simp only [List.filterMap_cons]
    cases hv : getVal r c with
    | vFloat x =>
      rw [hv] at hr
      simp only [castVal, Option.some.injEq] at hr
      rw [floatCell, floatCell, hv, ← hr]
      simp [ih]
    | vNull =>
      rw [hv] at hr
      simp only [castVal, Option.some.injEq] at hr
      rw [floatCell, floatCell, hv, ← hr]
      simpa using ih
    | vStr s =>
      rw [hv] at hr
      simp [castVal] at hr
    | vInt n =>
      rw [hv] at hr
      simp [castVal] at hr
    | vBool b =>
      rw [hv] at hr
      simp [castVal] at hr

theorem filterMap_floatCell_f64 {c : String} {rs rs' : List Row}
    (h : List.Forall₂ (fun r r' =>
      castVal (getVal r c) DType.float64 = some (getVal r' c)) rs rs') :
    rs'.filterMap (floatCell c) = rs.filterMap (floatCell c) := by
  apply filterMap_floatCell_id
  refine h.imp ?_
  intro r r' hr
  exact castVal_float64_id hr

/-! ## castTarget branch lemmas -/

theorem mem_int_not_string {c : String} (hc : c ∈ intCols) : c ∉ stringCols := by
  fin_cases hc <;> decide

theorem mem_bool_not_string {c : String} (hc : c ∈ boolCols) : c ∉ stringCols := by
  fin_cases hc <;> decide

theorem mem_bool_not_int {c : String} (hc : c ∈ boolCols) : c ∉ intCols := by
  fin_cases hc <;> decide

theorem castTarget_string {df : DF} {dt : DType} {c : String} (hc : c ∈ stringCols) :
    castTarget df c dt = some DType.utf8 := by
  simp [castTarget, hc]

theorem castTarget_int {df : DF} {dt : DType} {c : String} (hc : c ∈ intCols) :
    castTarget df c dt = some (if c = "round" then DType.int8 else DType.int32) := by
  by_cases hr : c = "round"
  · subst hr
    have h1 : ("round" : String) ∉ stringCols := by decide
    have h2 : ("round" : String) ∈ intCols := by decide
    simp [castTarget, h1, h2]
  · simp [castTarget, mem_int_not_string hc, hc, hr]

theorem castTarget_bool {df : DF} {dt : DType} {c : String} (hc : c ∈ boolCols) :
    castTarget df c dt = some DType.boolean := by
  simp [castTarget, mem_bool_not_string hc, mem_bool_not_int hc, hc]

theorem castTarget_float {df : DF} {dt : DType} {c : String}
    (hs : c ∉ stringCols) (hi : c ∉ intCols) (hb : c ∉ boolCols)
    (hdt : dt = DType.float64 ∨ dt = DType.float32) :
    castTarget df c dt =
      match listMaxQ (colFloats df c), listMinQ (colFloats df c) with
      | some mx, some mn =>
          if |mx| < floatRangeLimit ∧ |mn| < floatRangeLimit
          then some DType.float32 else some DType.float64
      | _, _ => none := by
  unfold castTarget
  rw [if_neg hs, if_neg hi, if_neg hb, if_pos hdt]

theorem castTarget_other {df : DF} {dt : DType} {c : String}
    (hs : c ∉ stringCols) (hi : c ∉ intCols) (hb : c ∉ boolCols)
    (hdt : ¬(dt = DType.float64 ∨ dt = DType.float32)) :
    castTarget df c dt = none := by
  simp [castTarget, hs, hi, hb, hdt]

theorem schemaGet_isSome_of_mem {l : List (String × DType)} {c : String}
    (hc : c ∈ l.map Prod.fst) : ∃ dt, schemaGet l c = some dt := by
  induction l with
  | nil => cases hc
  | cons p ps ih =>
    by_cases hp : p.1 = c
    · exact ⟨p.2, by simp [schemaGet, hp]⟩
    · have hc' : c ∈ ps.map Prod.fst := by
        rcases List.mem_map.1 hc with ⟨q, hq, hqc⟩
        rcases List.mem_cons.1 hq with he | hm
        · exact absurd (he ▸ hqc) hp
        · rw [← hqc]
          exact List.mem_map_of_mem _ hm
      rcases ih hc' with ⟨dt, hdt⟩
      exact ⟨dt, by simp [schemaGet, hp, hdt]⟩

/-! ## Stability of the cast dictionary under one optimization pass -/

theorem colCastTarget_out_eq {df out : DF} (h : optimizeDtypes df = some out) (c : String) :
    colCastTarget out c = colCastTarget df c := by
  have hrows := optimizeDtypes_rows h
  have hschema := optimizeDtypes_schema h
  have hsg : schemaGet out.schema c
      = (schemaGet df.schema c).map (fun dt => (colCastTarget df c).getD dt) := by
    rw [hschema]
    exact schemaGet_map_targets df.schema (fun c dt => (colCastTarget df c).getD dt) c
  show colCastTarget out c = colCastTarget df c
  unfold colCastTarget
  rw [hsg]
  cases hdf : schemaGet df.schema c with
  | none => rfl
  | some dt =>
    simp only [Option.map_some']
    have hccdf : colCastTarget df c = castTarget df c dt := by
      simp [colCastTarget, hdf]
    by_cases hs : c ∈ stringCols
    · rw [castTarget_string hs, castTarget_string hs]
    · by_cases hi : c ∈ intCols
      · rw [castTarget_int hi, castTarget_int hi]
      · by_cases hb : c ∈ boolCols
        · rw [castTarget_bool hb, castTarget_bool hb]
        · by_cases hdt : dt = DType.float64 ∨ dt = DType.float32
          · rcases hmax : listMaxQ (colFloats df c) with _ | mx
            · have hnone : castTarget df c dt = none := by
                rw [castTarget_float hs hi hb hdt, hmax]
              have hid : colFloats out c = colFloats df c := by
                unfold colFloats
                exact filterMap_floatCell_id
                  (forall₂_id_of_castRows hrows (by rw [hccdf]; exact hnone))
              rw [hccdf, hnone, Option.getD_none]
              rw [@castTarget_float out dt c hs hi hb hdt, hid, hmax]
            · rcases hmin : listMinQ (colFloats df c) with _ | mn
              · have hnil := listMinQ_eq_none.1 hmin
                rw [hnil] at hmax
                simp [listMaxQ] at hmax
              · have hdfne : colFloats df c ≠ [] := by
                  intro hcon
                  rw [hcon] at hmax
                  simp [listMaxQ] at hmax
                by_cases hg : |mx| < floatRangeLimit ∧ |mn| < floatRangeLimit
                · have hdf32 : castTarget df c dt = some DType.float32 := by
                    rw [castTarget_float hs hi hb hdt, hmax, hmin]
                    simp [hg]
                  have hf2 : colFloats out c = (colFloats df c).map roundF32 := by
                    unfold colFloats
                    exact filterMap_floatCell_round
                      (forall₂_castVal_of_castRows hrows (by rw [hccdf]; exact hdf32))
                  have hbound : ∀ y ∈ colFloats out c, |y| < floatRangeLimit := by
                    rw [hf2]
                    intro y hy
                    rcases List.mem_map.1 hy with ⟨x, hx, hxy⟩
                    have h1 := listMaxQ_le hmax hx
                    have h2 := listMinQ_ge hmin hx
                    have h3 := abs_le_max_abs_abs h2 h1
                    have h4 : max |mn| |mx| < floatRangeLimit := max_lt hg.2 hg.1
                    rw [← hxy]
                    exact abs_roundF32_lt_limit (lt_of_le_of_lt h3 h4)
                  have hne : colFloats out c ≠ [] := by
                    rw [hf2]
                    intro hcon
                    apply hdfne
                    cases hl : colFloats df c with
                    | nil => rfl
                    | cons a as =>
                      rw [hl] at hcon
                      simp at hcon
                  rcases hmax2 : listMaxQ (colFloats out c) with _ | mx2
                  · exact absurd (listMaxQ_eq_none.1 hmax2) hne
                  · rcases hmin2 : listMinQ (colFloats out c) with _ | mn2
                    · exact absurd (listMinQ_eq_none.1 hmin2) hne
                    · have hg2 : |mx2| < floatRangeLimit ∧ |mn2| < floatRangeLimit :=
                        ⟨hbound mx2 (listMaxQ_mem hmax2), hbound mn2 (listMinQ_mem hmin2)⟩
                      rw [hccdf, hdf32, Option.getD_some]
                      rw [@castTarget_float out DType.float32 c hs hi hb (Or.inr rfl), hmax2, hmin2]
                      simp [hg2]
                · have hdf64 : castTarget df c dt = some DType.float64 := by
                    rw [castTarget_float hs hi hb hdt, hmax, hmin]
                    simp [hg]
                  have hid : colFloats out c = colFloats df c := by
                    unfold colFloats
                    exact filterMap_floatCell_f64
                      (forall₂_castVal_of_castRows hrows (by rw [hccdf]; exact hdf64))
                  rw [hccdf, hdf64, Option.getD_some]
                  rw [@castTarget_float out DType.float64 c hs hi hb (Or.inl rfl), hid, hmax, hmin]
                  simp [hg]
          · have hnone : castTarget df c dt = none := castTarget_other hs hi hb hdt
            rw [hccdf, hnone, Option.getD_none]
            rw [@castTarget_other out dt c hs hi hb hdt]

theorem castRow_idem {df out : DF} (hK : ∀ c, colCastTarget out c = colCastTarget df c)
    {r r' : Row} (h : castRow df r = some r') : castRow out r' = some r' := by
  induction r generalizing r' with
  | nil =>
    simp only [castRow, Option.some.injEq] at h
    subst h
    rfl
  | cons p ps ih =>
    simp only [castRow] at h
    cases htp : colCastTarget df p.1 with
    | none =>
      simp only [htp] at h
      cases hps : castRow df ps with
      | none => simp [hps] at h
      | some ps' =>
        simp only [hps, Option.map_some', Option.some.injEq] at h
        subst h
        simp [castRow, hK p.1, htp, ih hps]
    | some t =>
      simp only [htp] at h
      cases hcv : castVal p.2 t with
      | none => simp [hcv] at h
      | some w =>
        simp only [hcv] at h
        cases hps : castRow df ps with
        | none => simp [hps] at h
        | some ps' =>
          simp only [hps, Option.map_some', Option.some.injEq] at h
          subst h
          simp [castRow, hK p.1, htp, castVal_fixed hcv, ih hps]

theorem optimizeDtypes_idem_of_some {df out : DF} (h : optimizeDtypes df = some out) :
    optimizeDtypes out = some out := by
  have hK := colCastTarget_out_eq h
  have hrows := optimizeDtypes_rows h
  have hschema := optimizeDtypes_schema h
  have hrows2 : castRows out out.rows = some out.rows := by
    apply castRows_of_forall₂
    rw [List.forall₂_same]
    intro r' hr'
    rcases List.mem_iff_get.1 hr' with ⟨⟨i, hi⟩, hri⟩
    have hf := castRows_forall₂ hrows
    rw [List.forall₂_iff_get] at hf
    obtain ⟨hlen, hget⟩ := hf
    have hone := hget i (by omega) hi
    rw [hri] at hone
    exact castRow_idem hK hone
  unfold optimizeDtypes
  rw [hrows2]
  have hsch : out.schema.map (fun p => (p.1, (colCastTarget out p.1).getD p.2)) = out.schema := by
    rw [hschema, List.map_map]
    apply List.map_congr_left
    intro p _
    simp only [Function.comp]
    rw [hK p.1]
    cases hct : colCastTarget df p.1 <;> simp
  rw [hsch]


/-- C9: `optimize_dtypes` is idempotent — applying it twice gives the same
result as applying it once, so re-applying the optimization on the cache-hit
path never changes an already-optimized table. -/
theorem optimize_dtypes_idempotent (df : DF) :
    (optimizeDtypes df).bind optimizeDtypes = optimizeDtypes df := by
  cases h : optimizeDtypes df with
  | none => rfl
  | some out =>
    show optimizeDtypes out = some out
    exact optimizeDtypes_idem_of_some h

/-- C5 (amended): `optimize_dtypes` does not always "change only storage".
What holds, whenever it returns: an untouched column is unchanged; an
integer cell cast to a narrow integer type keeps its exact value; a float
cell kept at `Float64` is unchanged, and one downcast to `Float32` becomes
its binary32 round-to-nearest value; a float column with an observed
magnitude at least the 3.4e38 limit is never downcast to `Float32`, and such
a `Float64` data column keeps dtype `Float64`.  What fails (see the
counterexample): a float cell in an int-designated column is silently
truncated toward zero — a value change —, a float cell in a
string-designated column is stringified, and an int-designated cell outside
the narrow range makes the strict cast raise instead of staying wide. -/
theorem optimize_dtypes_value_safety :
    (∀ df out, optimizeDtypes df = some out →
      List.Forall₂ (fun r r' => ∀ c : String,
        (colCastTarget df c = none → getVal r' c = getVal r c) ∧
        (∀ n : ℤ, getVal r c = Val.vInt n →
          (colCastTarget df c = some DType.int8 ∨ colCastTarget df c = some DType.int32) →
          getVal r' c = Val.vInt n) ∧
        (∀ x : ℚ, getVal r c = Val.vFloat x →
          colCastTarget df c = some DType.float64 →
          getVal r' c = Val.vFloat x) ∧
        (∀ x : ℚ, getVal r c = Val.vFloat x →
          colCastTarget df c = some DType.float32 →
          getVal r' c = Val.vFloat (roundF32 x)) ∧
        (∀ x : ℚ, getVal r c = Val.vFloat x →
          (colCastTarget df c = some DType.int8 ∨ colCastTarget df c = some DType.int32) →
          getVal r' c = Val.vInt (truncQ x)) ∧
        (∀ x : ℚ, getVal r c = Val.vFloat x →
          colCastTarget df c = some DType.utf8 →
          getVal r' c = Val.vStr (floatStr x)))
        df.rows out.rows) ∧
    (∀ df c (x : ℚ), x ∈ colFloats df c → floatRangeLimit ≤ |x| →
      colCastTarget df c ≠ some DType.float32) ∧
    (∀ df out, optimizeDtypes df = some out → ∀ c,
      c ∉ stringCols → c ∉ intCols → c ∉ boolCols →
      schemaGet df.schema c = some DType.float64 →
      (∃ x ∈ colFloats df c, floatRangeLimit ≤ |x|) →
      schemaGet out.schema c = some DType.float64) := by
  refine ⟨?_, ?_, ?_⟩
  · intro df out h
    refine (castRows_forall₂ (optimizeDtypes_rows h)).imp ?_
    intro r r' hr c
    have hv := castRow_some_getVal hr c
    refine ⟨?_, ?_, ?_, ?_, ?_, ?_⟩
    · intro ht
      rw [ht] at hv
      have hv' : some (getVal r c) = some (getVal r' c) := hv
      exact (Option.some_inj.mp hv').symm
    · intro n hn ht
      rcases ht with ht | ht
      · rw [ht, hn] at hv
        have hv' : (if -128 ≤ n ∧ n ≤ 127 then some (Val.vInt n) else none)
            = some (getVal r' c) := hv
        split at hv'
        · exact (Option.some_inj.mp hv').symm
        · exact absurd hv' (by simp)
      · rw [ht, hn] at hv
        have hv' : (if -(2 ^ 31) ≤ n ∧ n ≤ 2 ^ 31 - 1 then some (Val.vInt n) else none)
            = some (getVal r' c) := hv
        split at hv'
        · exact (Option.some_inj.mp hv').symm
        · exact absurd hv' (by simp)
    · intro x hx ht
      rw [ht, hx] at hv
      have hv' : some (Val.vFloat x) = some (getVal r' c) := hv
      exact (Option.some_inj.mp hv').symm
    · intro x hx ht
      rw [ht, hx] at hv
      have hv' : some (Val.vFloat (roundF32 x)) = some (getVal r' c) := hv
      exact (Option.some_inj.mp hv').symm
    · intro x hx ht
      rcases ht with ht | ht
      · rw [ht, hx] at hv
        have hv' : (if -128 ≤ truncQ x ∧ truncQ x ≤ 127
            then some (Val.vInt (truncQ x)) else none) = some (getVal r' c) := hv
        split at hv'
        · exact (Option.some_inj.mp hv').symm
        · exact absurd hv' (by simp)
      · rw [ht, hx] at hv
        have hv' : (if -(2 ^ 31) ≤ truncQ x ∧ truncQ x ≤ 2 ^ 31 - 1
            then some (Val.vInt (truncQ x)) else none) = some (getVal r' c) := hv
        split at hv'
        · exact (Option.some_inj.mp hv').symm
        · exact absurd hv' (by simp)
    · intro x hx ht
      rw [ht, hx] at hv
      have hv' : some (Val.vStr (floatStr x)) = some (getVal r' c) := hv
      exact (Option.some_inj.mp hv').symm
  · intro df c x hx hlim hcon
    unfold colCastTarget at hcon
    cases hdf : schemaGet df.schema c with
    | none =>
      rw [hdf] at hcon
      exact absurd (show (none : Option DType) = some DType.float32 from hcon) (by simp)
    | some dt =>
      rw [hdf] at hcon
      have hcon' : castTarget df c dt = some DType.float32 := hcon
      by_cases hs : c ∈ stringCols
      · rw [castTarget_string hs] at hcon'
        simp at hcon'
      · by_cases hi : c ∈ intCols
        · rw [castTarget_int hi] at hcon'
          by_cases hr : c = "round" <;> simp [hr] at hcon'
        · by_cases hb : c ∈ boolCols
          · rw [castTarget_bool hb] at hcon'
            simp at hcon'
          · by_cases hdt : dt = DType.float64 ∨ dt = DType.float32
            · rw [castTarget_float hs hi hb hdt] at hcon'
              rcases hmax : listMaxQ (colFloats df c) with _ | mx <;>
                rcases hmin : listMinQ (colFloats df c) with _ | mn <;>
                rw [hmax, hmin] at hcon'
              · exact absurd
                  (show (none : Option DType) = some DType.float32 from hcon') (by simp)
              · exact absurd
                  (show (none : Option DType) = some DType.float32 from hcon') (by simp)
              · exact absurd
                  (show (none : Option DType) = some DType.float32 from hcon') (by simp)
              · have h1 := listMaxQ_le hmax hx
                have h2 := listMinQ_ge hmin hx
                have hif : (if |mx| < floatRangeLimit ∧ |mn| < floatRangeLimit
                    then some DType.float32 else some DType.float64)
                    = some DType.float32 := hcon'
                by_cases hg : |mx| < floatRangeLimit ∧ |mn| < floatRangeLimit
                · have h3 : |x| ≤ |mn| ⊔ |mx| := abs_le_max_abs_abs h2 h1
                  have h4 : |mn| ⊔ |mx| < floatRangeLimit := max_lt hg.2 hg.1
                  exact absurd hlim (not_le.mpr (lt_of_le_of_lt h3 h4))
                · rw [if_neg hg] at hif
                  simp at hif
            · rw [castTarget_other hs hi hb hdt] at hcon'
              simp at hcon'
  · intro df out h c hs hi hb hd64 hex
    obtain ⟨x, hx, hlim⟩ := hex
    have hschema := optimizeDtypes_schema h
    have hsg : schemaGet out.schema c
        = (schemaGet df.schema c).map (fun dt => (colCastTarget df c).getD dt) := by
      rw [hschema]
      exact schemaGet_map_targets df.schema (fun c dt => (colCastTarget df c).getD dt) c
    rw [hsg, hd64, Option.map_some']
    have hcc : colCastTarget df c = castTarget df c DType.float64 := by
      simp [colCastTarget, hd64]
    rcases hmax : listMaxQ (colFloats df c) with _ | mx
    · rw [listMaxQ_eq_none.1 hmax] at hx
      cases hx
    · rcases hmin : listMinQ (colFloats df c) with _ | mn
      · rw [listMinQ_eq_none.1 hmin] at hx
        cases hx
      · have h1 := listMaxQ_le hmax hx
        have h2 := listMinQ_ge hmin hx
        have hg : ¬(|mx| < floatRangeLimit ∧ |mn| < floatRangeLimit) := by
          rintro ⟨g1, g2⟩
          have h3 : |x| ≤ |mn| ⊔ |mx| := abs_le_max_abs_abs h2 h1
          have h4 : |mn| ⊔ |mx| < floatRangeLimit := max_lt g2 g1
          exact absurd hlim (not_le.mpr (lt_of_le_of_lt h3 h4))
        have hct : castTarget df c DType.float64 = some DType.float64 := by
          rw [castTarget_float hs hi hb (Or.inl rfl), hmax, hmin]
          show (if |mx| < floatRangeLimit ∧ |mn| < floatRangeLimit
              then some DType.float32 else some DType.float64) = some DType.float64
          rw [if_neg hg]
        rw [hcc, hct, Option.getD_some]

/-- Witness for C5: on `c5FloatDf` the optimization returns (narrowing `round`
to `Int8` and keeping every value), and the third conjunct applies concretely —
the out-of-range `Float64` column `x` keeps dtype `Float64`. -/
theorem optimize_dtypes_value_safety_witness :
    optimizeDtypes c5FloatDf
      = some ⟨[("round", DType.int8), ("x", DType.float64)],
              [[("round", Val.vInt 3), ("x", Val.vFloat (34 * 10 ^ 37))]]⟩ ∧
    schemaGet [("round", DType.int8), ("x", DType.float64)] "x" = some DType.float64 := by
  have hcf : colFloats c5FloatDf "x" = [(34 * 10 ^ 37 : ℚ)] := rfl
  have hlim : floatRangeLimit ≤ |(34 * 10 ^ 37 : ℚ)| := by
    rw [abs_of_nonneg (by positivity)]
    norm_num [floatRangeLimit]
  have hct : colCastTarget c5FloatDf "x" = some DType.float64 := by
    have hsg : schemaGet c5FloatDf.schema "x" = some DType.float64 := by decide
    unfold colCastTarget
    rw [hsg]
    show castTarget c5FloatDf "x" DType.float64 = some DType.float64
    rw [castTarget_float (by decide) (by decide) (by decide) (Or.inl rfl), hcf]
    show (if |(34 * 10 ^ 37 : ℚ)| < floatRangeLimit ∧ |(34 * 10 ^ 37 : ℚ)| < floatRangeLimit
        then some DType.float32 else some DType.float64) = some DType.float64
    rw [if_neg]
    rintro ⟨g, -⟩
    exact absurd hlim (not_le.mpr g)
  have hcr : colCastTarget c5FloatDf "round" = some DType.int8 := by decide
  have hrow : castRow c5FloatDf [("round", Val.vInt 3), ("x", Val.vFloat (34 * 10 ^ 37))]
      = some [("round", Val.vInt 3), ("x", Val.vFloat (34 * 10 ^ 37))] := by
    simp only [castRow, hcr, hct]
    norm_num [castVal]
  have hrows : castRows c5FloatDf c5FloatDf.rows
      = some [[("round", Val.vInt 3), ("x", Val.vFloat (34 * 10 ^ 37))]] := by
    show castRows c5FloatDf [[("round", Val.vInt 3), ("x", Val.vFloat (34 * 10 ^ 37))]]
      = some [[("round", Val.vInt 3), ("x", Val.vFloat (34 * 10 ^ 37))]]
    simp only [castRows, hrow]
  have hopt : optimizeDtypes c5FloatDf
      = some ⟨[("round", DType.int8), ("x", DType.float64)],
              [[("round", Val.vInt 3), ("x", Val.vFloat (34 * 10 ^ 37))]]⟩ := by
    unfold optimizeDtypes
    rw [hrows]
    show some (DF.mk
        (c5FloatDf.schema.map (fun p => (p.1, (colCastTarget c5FloatDf p.1).getD p.2)))
        [[("round", Val.vInt 3), ("x", Val.vFloat (34 * 10 ^ 37))]]) = _
    have hsch : c5FloatDf.schema.map (fun p => (p.1, (colCastTarget c5FloatDf p.1).getD p.2))
        = [("round", DType.int8), ("x", DType.float64)] := by
      show [("round", (colCastTarget c5FloatDf "round").getD DType.int64),
            ("x", (colCastTarget c5FloatDf "x").getD DType.float64)]
        = [("round", DType.int8), ("x", DType.float64)]
      rw [hcr, hct]
      rfl
    rw [hsch]
  refine ⟨hopt, ?_⟩
  have := optimize_dtypes_value_safety.2.2 c5FloatDf
    ⟨[("round", DType.int8), ("x", DType.float64)],
     [[("round", Val.vInt 3), ("x", Val.vFloat (34 * 10 ^ 37))]]⟩
    hopt "x" (by decide) (by decide) (by decide) (by decide)
    ⟨(34 * 10 ^ 37 : ℚ), by rw [hcf]; exact List.mem_singleton.mpr rfl, hlim⟩
  exact this

end SeeSpot
